import Mathlib
/-
Verification of the mqtt-ir-module backend against its specification.

Python strings are embedded as `List Char`; Python `int` as `Int` (arbitrary
precision, as in CPython); Python `float` values that carry exact decimal or
rational data (ratios, timeouts, scores) as `ℚ`; fallible code as `Except` or
`Option`; the SQLite table and the in-memory service state as explicit state
passed through the operations.
-/
namespace MqttIr
/-! ## Decimal digits: the embedding of Python `str(int(v))` and `int(s)` -/
/-- Decimal digit characters of a natural number, most significant first,
with explicit fuel so that the recursion is structural (the fuel only needs
to exceed the number being printed). -/
def natDigitsAux : Nat → Nat → List Char
  | 0, _ => []
  | fuel + 1, n =>
    if n < 10 then [Nat.digitChar n]
    else natDigitsAux fuel (n / 10) ++ [Nat.digitChar (n % 10)]
/-- Decimal digit characters of a natural number, as produced by Python `str`. -/
def natDigits (n : Nat) : List Char := natDigitsAux (n + 1) n
/-- Numeric value of one decimal digit character. -/
def charVal (c : Char) : Nat := c.toNat - 48
/-- Value of a digit string, as accumulated by a base-10 left fold. -/
def digitsVal (cs : List Char) : Nat := cs.foldl (fun a c => 10 * a + charVal c) 0
/-- Python `int(s)` on a token: an optional single sign followed by one or
more decimal digits; anything else raises, embedded as `none`. -/
def pyDigits? (cs : List Char) : Option Nat :=
  if cs.isEmpty then none
  else if cs.all Char.isDigit then some (digitsVal cs) else none
/-- Python `int(s)` for a whole (already whitespace-free) token. -/
def pyInt? : List Char → Option Int
  | '+' :: rest => (pyDigits? rest).map (fun n => (n : Int))
  | '-' :: rest => (pyDigits? rest).map (fun n => -(n : Int))
  | cs => (pyDigits? cs).map (fun n => (n : Int))
/-- Python `str(v)` for an integer: a minus sign for negatives, then the
decimal digits; no plus sign for non-negative values. -/
def intStr (v : Int) : List Char :=
  if v < 0 then '-' :: natDigits v.natAbs else natDigits v.natAbs

/-! ## Whitespace splitting and joining: Python `str.split()` and `" ".join` -/
/-- One step of whitespace tokenization with an accumulator holding the
current word reversed; models Python `str.split()` (split on whitespace
runs, drop empty tokens). -/
def splitWsAux : List Char → List Char → List (List Char)
  | [], acc => if acc.isEmpty then [] else [acc.reverse]
  | c :: rest, acc =>
    if c.isWhitespace then
      if acc.isEmpty then splitWsAux rest [] else acc.reverse :: splitWsAux rest []
    else splitWsAux rest (c :: acc)
/-- Python `str.split()` with no separator argument. -/
def splitWs (cs : List Char) : List (List Char) := splitWsAux cs []
/-- Python `" ".join(words)`. -/
def joinWords : List (List Char) → List Char
  | [] => []
  | [w] => w
  | w :: ws => w ++ ' ' :: joinWords ws
/-! ## IrSignalParser (src/backend/electronics/ir_signal_parser.py) -/
namespace IrSignalParser
/-- `p.startswith("+") or p.startswith("-")`. -/
def startsSign (w : List Char) : Bool :=
  match w with
  | [] => false
  | c :: _ => c = '+' || c = '-'
/-- `p.lower()` on one token. -/
def lowerWord (w : List Char) : List Char := w.map Char.toLower
def wordPulse : List Char := ['p', 'u', 'l', 's', 'e']
def wordSpace : List Char := ['s', 'p', 'a', 'c', 'e']
def wordCarrier : List Char := ['c', 'a', 'r', 'r', 'i', 'e', 'r']
def wordFrequency : List Char := ['f', 'r', 'e', 'q', 'u', 'e', 'n', 'c', 'y']
/-- The token scan loop of `_parse_tokens`, over the whitespace-split words:
signed integers are taken as-is, `pulse N`/`space N` pairs consume two words,
`carrier`/`frequency` with an argument are skipped, anything else is ignored.
The `i + 1 < len(parts)` guards of the source are the one-element cases. -/
def parseTokensWords : List (List Char) → List Int
  | [] => []
  | [p] =>
    if startsSign p then
      match pyInt? p with
      | some v => [v]
      | none => []
    else []
  | p :: q :: rest =>
    if startsSign p then
      match pyInt? p with
      | some v => v :: parseTokensWords (q :: rest)
      | none => parseTokensWords (q :: rest)
    else if lowerWord p = wordPulse ∨ lowerWord p = wordSpace then
      match pyInt? q with
      | some v => (if lowerWord p = wordPulse then v else -v) :: parseTokensWords rest
      | none => parseTokensWords rest
    else if lowerWord p = wordCarrier ∨ lowerWord p = wordFrequency then
      parseTokensWords rest
    else parseTokensWords (q :: rest)
/-- `IrSignalParser._parse_tokens` (strip / tab replacement are absorbed by
whitespace splitting). -/
def parse_tokens (raw : List Char) : List Int := parseTokensWords (splitWs raw)
/-- The first normalization pass of `_normalize`: drop zero entries and merge
consecutive same-sign entries into the last accumulated entry. `cur` is the
running last element of the Python `merged` list. -/
def mergeRunDrop : Int → List Int → List Int
  | cur, [] => [cur]
  | cur, v :: rest =>
    if v = 0 then mergeRunDrop cur rest
    else if (cur > 0 ∧ v > 0) ∨ (cur < 0 ∧ v < 0) then mergeRunDrop (cur + v) rest
    else cur :: mergeRunDrop v rest
def merge_dup : List Int → List Int
  | [] => []
  | v :: rest => if v = 0 then merge_dup rest else mergeRunDrop v rest
/-- The second pass of `_normalize` (same-sign merge, no zero dropping). -/
def mergeRun : Int → List Int → List Int
  | cur, [] => [cur]
  | cur, v :: rest =>
    if (cur > 0 ∧ v > 0) ∨ (cur < 0 ∧ v < 0) then mergeRun (cur + v) rest
    else cur :: mergeRun v rest
def merge_alt : List Int → List Int
  | [] => []
  | v :: rest => mergeRun v rest
/-- `while merged and merged[-1] < 0: merged.pop()`. -/
def dropTrailingSpaces (l : List Int) : List Int :=
  (l.reverse.dropWhile (fun v => decide (v < 0))).reverse
/-- `merged and merged[0] < 0` (the starts-with-a-space test). -/
def headNeg (l : List Int) : Bool :=
  match l with
  | [] => false
  | v :: _ => decide (v < 0)
/-- `normalized[-1] < 0` read off the final element, `false` on empty. -/
def lastNeg (l : List Int) : Bool :=
  match l.getLast? with
  | none => false
  | some v => decide (v < 0)
/-- `IrSignalParser._normalize` (the two merge passes, the starts-with-space
check, the trailing-space strip and the final start/end checks, in source
order). -/
def normalize (pulses : List Int) : Except String (List Int) :=
  if headNeg (merge_dup pulses) then
    Except.error "Signal starts with a space; cannot normalize"
  else if (dropTrailingSpaces (merge_dup pulses)).isEmpty then Except.ok []
  else if headNeg (merge_alt (dropTrailingSpaces (merge_dup pulses))) then
    Except.error "Normalized signal does not start with a pulse"
  else if lastNeg (merge_alt (dropTrailingSpaces (merge_dup pulses))) then
    Except.error "Normalized signal does not end with a pulse"
  else Except.ok (merge_alt (dropTrailingSpaces (merge_dup pulses)))
/-- `abs(int(tokens[-1]))` when the final raw token is a space. -/
def tailGap (tokens : List Int) : Option Int :=
  match tokens.getLast? with
  | some v => if v < 0 then some (-v) else none
  | none => none
/-- `IrSignalParser.parse_and_normalize`. -/
def parse_and_normalize (raw : List Char) : Except String (List Int × Option Int) :=
  if (parse_tokens raw).isEmpty then Except.error "No tokens parsed from raw capture"
  else
    match normalize (parse_tokens raw) with
    | Except.error e => Except.error e
    | Except.ok [] => Except.error "Normalized signal is empty"
    | Except.ok pulses => Except.ok (pulses, tailGap (parse_tokens raw))
/-- `IrSignalParser.encode_pulses`: space-separated `str(int(v))`. -/
def encode_pulses (pulses : List Int) : List Char := joinWords (pulses.map intStr)
/-- The accumulation loop of `decode_pulses`: `int(...)` on each part in
order; a non-integer part raises, embedded as `none`. -/
def decodeInts : List (List Char) → Option (List Int)
  | [] => some []
  | w :: ws =>
    match pyInt? w, decodeInts ws with
    | some v, some vs => some (v :: vs)
    | _, _ => none
/-- `IrSignalParser.decode_pulses`: split on whitespace and parse each part. -/
def decode_pulses (text : List Char) : Option (List Int) :=
  decodeInts (splitWs text)
/-- Adjacent elements have strictly opposite signs. -/
def OppSign (a b : Int) : Prop := (0 < a ∧ b < 0) ∨ (a < 0 ∧ 0 < b)
end IrSignalParser

/-! ## IrSignalAggregator (src/backend/electronics/ir_signal_aggregator.py) -/

namespace IrSignalAggregator

/-- `tuple(1 if v > 0 else -1 for v in frame)`. -/
def sign_pattern (frame : List Int) : List Int :=
  frame.map (fun v => if 0 < v then 1 else -1)

/-- `clusters.setdefault(key, []).append(idx)` on an insertion-ordered
association list (the embedding of the Python dict). -/
def addCluster : List ((Nat × List Int) × List Nat) → (Nat × List Int) → Nat →
    List ((Nat × List Int) × List Nat)
  | [], key, idx => [(key, [idx])]
  | (k, is) :: rest, key, idx =>
    if k = key then (k, is ++ [idx]) :: rest else (k, is) :: addCluster rest key idx

/-- One iteration of the clustering loop: empty frames are skipped. -/
def clusterStep (acc : List ((Nat × List Int) × List Nat)) (p : Nat × List Int) :
    List ((Nat × List Int) × List Nat) :=
  if p.2.isEmpty then acc else addCluster acc (p.2.length, sign_pattern p.2) p.1

/-- The clustering loop over `enumerate(frames)`. -/
def buildClusters (frames : List (List Int)) : List ((Nat × List Int) × List Nat) :=
  frames.enum.foldl clusterStep []

/-- `max(clusters.items(), key=lambda kv: len(kv[1]))`: first maximal entry
in iteration order (later entries replace only on strictly larger size);
`none` on an empty dict (where Python would raise). -/
def pickBest : List ((Nat × List Int) × List Nat) → Option ((Nat × List Int) × List Nat)
  | [] => none
  | c :: rest =>
    some (rest.foldl (fun best x => if best.2.length < x.2.length then x else best) c)

/-- `IrSignalAggregator._median_int` on the (sorted, absolute) duration list:
middle element for odd counts, integer average of the two middle elements
for even counts (`int((a + b) / 2)` truncates the half). -/
def median_int (values : List Nat) : Nat :=
  match values with
  | [] => 0
  | _ :: _ =>
    if values.length % 2 = 1 then values.getD (values.length / 2) 0
    else (values.getD (values.length / 2 - 1) 0 + values.getD (values.length / 2) 0) / 2

/-- Python `round(num / den)` on the exact quotient for `den > 0`: nearest
integer, ties to the even quotient. -/
def roundHalfEven (num den : Nat) : Nat :=
  if 2 * (num % den) < den then num / den
  else if den < 2 * (num % den) then num / den + 1
  else if num / den % 2 = 0 then num / den else num / den + 1

/-- `max(1, int(math.ceil(len(frames) * min_match_ratio)))`. -/
def required (nframes : Nat) (min_match_ratio : ℚ) : Int :=
  max 1 (Int.ceil ((nframes : ℚ) * min_match_ratio))

/-- Per-frame mean absolute error against the aggregated frame. -/
def frame_error (frame : List Int) (aggregated : List Int) : ℚ :=
  ((((List.range aggregated.length).map
      (fun i => (((frame.getD i 0).natAbs : Int) -
        ((aggregated.getD i 0).natAbs : Int)).natAbs)).sum : ℚ)) /
    (aggregated.length : ℚ)

/-- `IrSignalAggregator._quality_score`. -/
def quality_score (frames : List (List Int)) (indices : List Nat)
    (aggregated : List Int) : ℚ :=
  if indices.isEmpty then 0
  else if aggregated.length = 0 then 0
  else
    let errors := (indices.filter
        (fun idx => decide ((frames.getD idx []).length = aggregated.length))).map
      (fun idx => frame_error (frames.getD idx []) aggregated)
    if errors.isEmpty then 0
    else max 0 (1 - min 1 (errors.sum / (errors.length : ℚ) / 500))

/-- `IrSignalAggregator.aggregate` (the insufficient-matches message is
abbreviated: the source interpolates the two counts into it). -/
def aggregate (frames : List (List Int)) (round_to_us : Int) (min_match_ratio : ℚ) :
    Except String (List Int × List Nat × ℚ) :=
  if frames.isEmpty then Except.error "frames must not be empty"
  else if round_to_us ≤ 0 then Except.error "round_to_us must be > 0"
  else if min_match_ratio ≤ 0 ∨ 1 < min_match_ratio then
    Except.error "min_match_ratio must be in (0, 1]"
  else
    match pickBest (buildClusters frames) with
    | none => Except.error "No valid frames to aggregate"
    | some (best_key, best_indices) =>
      if (best_indices.length : Int) < required frames.length min_match_ratio then
        Except.error "Not enough matching takes"
      else
        Except.ok
          ((List.range best_key.1).map (fun i =>
            (if 0 < best_key.2.getD i 0 then 1 else (-1 : Int)) *
              ((max 1 (roundHalfEven
                  (median_int (List.insertionSort (fun a b => a ≤ b)
                    (best_indices.map
                      (fun idx => ((frames.getD idx []).getD i 0).natAbs))))
                  round_to_us.toNat * round_to_us.toNat) : Nat) : Int)),
            best_indices,
            quality_score frames best_indices
              ((List.range best_key.1).map (fun i =>
                (if 0 < best_key.2.getD i 0 then 1 else (-1 : Int)) *
                  ((max 1 (roundHalfEven
                      (median_int (List.insertionSort (fun a b => a ≤ b)
                        (best_indices.map
                          (fun idx => ((frames.getD idx []).getD i 0).natAbs))))
                      round_to_us.toNat * round_to_us.toNat) : Nat) : Int))))

/-- Ordered association-list lookup for the cluster map. -/
def lookupCluster : List ((Nat × List Int) × List Nat) → (Nat × List Int) →
    Option (List Nat)
  | [], _ => none
  | (k, is) :: rest, key => if k = key then some is else lookupCluster rest key

/-- The indices (in order) of the nonempty frames in `ps` whose
`(length, sign pattern)` equals `key`. -/
def pairIdxs (ps : List (Nat × List Int)) (key : Nat × List Int) : List Nat :=
  (ps.filter (fun p => !p.2.isEmpty && decide ((p.2.length, sign_pattern p.2) = key))).map
    (fun p => p.1)

/-- The cluster of `frames` at `key`: all indices of nonempty frames whose
length and sign pattern match `key`, in frame order. -/
def clusterIndices (frames : List (List Int)) (key : Nat × List Int) : List Nat :=
  pairIdxs frames.enum key

/-- The median of the spec sentence as claimed: lower-middle element for
even counts (stated for comparison with `median_int`). -/
def median_lower (values : List Nat) : Nat :=
  match values with
  | [] => 0
  | _ :: _ =>
    if values.length % 2 = 1 then values.getD (values.length / 2) 0
    else values.getD (values.length / 2 - 1) 0

end IrSignalAggregator

/-- Python `str.strip()`. -/
def pyStrip (s : List Char) : List Char :=
  ((s.dropWhile Char.isWhitespace).reverse.dropWhile Char.isWhitespace).reverse

/-- `agents/errors.py` `AgentRoutingError(code, message, status_code)`; the
human-readable message is not tracked. -/
structure AgentRoutingError where
  code : String
  status_code : Nat
deriving DecidableEq

/-! ## Signals table (src/backend/database/schemas/signals.py) -/

namespace Signals

/-- One row of the `button_signals` table (the `button_id` primary key is
the association-list key). -/
structure SignalRow where
  encoding : List Char
  press_initial : List Char
  press_repeat : Option (List Char)
  hold_initial : Option (List Char)
  hold_repeat : Option (List Char)
  hold_gap_us : Option Int
  sample_count_press : Int
  sample_count_hold : Int
  quality_score_press : Option ℚ
  quality_score_hold : Option ℚ
  protocol : Option (List Char)
  address : Option (List Char)
  command_hex : Option (List Char)
  decode_confidence : Option ℚ
  created_at : ℚ
  updated_at : ℚ

/-- The `button_signals` table: rows keyed by `button_id`
(`INTEGER PRIMARY KEY`, so keys are unique by construction). -/
def DB : Type := List (Int × SignalRow)

/-- `SELECT ... FROM button_signals WHERE button_id = ?`. -/
def lookupRow : List (Int × SignalRow) → Int → Option SignalRow
  | [], _ => none
  | (k, row) :: rest, b => if k = b then some row else lookupRow rest b

/-- `UPDATE ... WHERE button_id = ?` (no effect on other rows or on a
missing key). -/
def setRow : List (Int × SignalRow) → Int → SignalRow → List (Int × SignalRow)
  | [], _, _ => []
  | (k, row) :: rest, b, r => if k = b then (k, r) :: rest else (k, row) :: setRow rest b r

/-- `Signals.upsert_press`: validate, then UPDATE the press fields of an
existing row or INSERT a fresh row with NULL hold fields and
`sample_count_hold = 0`; returns the row read back. A raise leaves the
table unchanged and is paired with the original table. -/
def upsert_press (db : List (Int × SignalRow)) (button_id : Int)
    (press_initial : List Char) (press_repeat : Option (List Char))
    (sample_count_press : Int) (quality_score_press : Option ℚ)
    (encoding : List Char) (now : ℚ) :
    List (Int × SignalRow) × Except String SignalRow :=
  if pyStrip press_initial = [] then (db, Except.error "press_initial must not be empty")
  else if sample_count_press ≤ 0 then (db, Except.error "sample_count_press must be > 0")
  else
    match lookupRow db button_id with
    | some existing =>
      let row := { existing with
        encoding := encoding
        press_initial := pyStrip press_initial
        press_repeat := press_repeat
        sample_count_press := sample_count_press
        quality_score_press := quality_score_press
        updated_at := now }
      (setRow db button_id row, Except.ok row)
    | none =>
      let row : SignalRow := {
        encoding := encoding
        press_initial := pyStrip press_initial
        press_repeat := press_repeat
        hold_initial := none
        hold_repeat := none
        hold_gap_us := none
        sample_count_press := sample_count_press
        sample_count_hold := 0
        quality_score_press := quality_score_press
        quality_score_hold := none
        protocol := none
        address := none
        command_hex := none
        decode_confidence := none
        created_at := now
        updated_at := now }
      (db ++ [(button_id, row)], Except.ok row)

/-- `Signals.update_hold`: validate, require a preexisting row (press must
precede hold), then UPDATE the hold fields; returns the row read back. A
raise leaves the table unchanged and is paired with the original table. -/
def update_hold (db : List (Int × SignalRow)) (button_id : Int)
    (hold_initial : List Char) (hold_repeat : Option (List Char))
    (hold_gap_us : Option Int) (sample_count_hold : Int)
    (quality_score_hold : Option ℚ) (now : ℚ) :
    List (Int × SignalRow) × Except String SignalRow :=
  if pyStrip hold_initial = [] then (db, Except.error "hold_initial must not be empty")
  else if sample_count_hold ≤ 0 then (db, Except.error "sample_count_hold must be > 0")
  else
    match lookupRow db button_id with
    | none => (db, Except.error "Press signal must be captured before hold")
    | some existing =>
      let row := { existing with
        hold_initial := some (pyStrip hold_initial)
        hold_repeat := hold_repeat
        hold_gap_us := hold_gap_us
        sample_count_hold := sample_count_hold
        quality_score_hold := quality_score_hold
        updated_at := now }
      (setRow db button_id row, Except.ok row)

/-- Arguments of one `upsert_press` call. -/
structure PressArgs where
  button_id : Int
  press_initial : List Char
  press_repeat : Option (List Char)
  sample_count_press : Int
  quality_score_press : Option ℚ
  encoding : List Char
  now : ℚ

/-- Arguments of one `update_hold` call. -/
structure HoldArgs where
  button_id : Int
  hold_initial : List Char
  hold_repeat : Option (List Char)
  hold_gap_us : Option Int
  sample_count_hold : Int
  quality_score_hold : Option ℚ
  now : ℚ

/-- One mutating operation on the `button_signals` table. -/
inductive SigOp where
  | press (a : PressArgs)
  | hold (a : HoldArgs)

/-- Execute one operation: the resulting table and the call's outcome. -/
def applyOp (db : List (Int × SignalRow)) : SigOp → List (Int × SignalRow) × Except String SignalRow
  | SigOp.press a =>
    upsert_press db a.button_id a.press_initial a.press_repeat a.sample_count_press
      a.quality_score_press a.encoding a.now
  | SigOp.hold a =>
    update_hold db a.button_id a.hold_initial a.hold_repeat a.hold_gap_us
      a.sample_count_hold a.quality_score_hold a.now

/-- Run a sequence of operations against the initially empty table. -/
def runOps (ops : List SigOp) : List (Int × SignalRow) :=
  ops.foldl (fun db op => (applyOp db op).1) []

/-- A `button_signals` row for this button exists. -/
def rowExists (db : List (Int × SignalRow)) (b : Int) : Bool :=
  (lookupRow db b).isSome

end Signals

/-! ## IrSenderService (src/backend/electronics/ir_sender_service.py) -/

namespace IrSenderService

/-- `math.ceil(a / float(b))` for `a ≥ 0 < b`, on exact integers. -/
def ceil_div_nonneg (a b : Int) : Int := ((a.toNat + b.toNat - 1) / b.toNat : Nat)

/-- `int(gap_us) if gap_us and gap_us > 0 else 0`: the gap contributes only
when present and positive (`None` and `0` are falsy). -/
def gap_contrib : Option Int → Int
  | some g => if 0 < g then g else 0
  | none => 0

/-- `IrSenderService._estimate_repeat_count`. -/
def estimate_repeat_count (hold_ms : Int) (initial_pulses repeat_pulses : List Int)
    (gap_us : Option Int) : Int :=
  if (repeat_pulses.map (fun v => |v|)).sum + gap_contrib gap_us ≤ 0 then 1
  else
    max 1 (ceil_div_nonneg
      (max 0 (hold_ms * 1000 - (initial_pulses.map (fun v => |v|)).sum))
      ((repeat_pulses.map (fun v => |v|)).sum + gap_contrib gap_us))

end IrSenderService

/-! ## AgentCommandClientHub (src/backend/connections/agent_command_client_hub.py) -/

namespace AgentCommandClientHub

/-- One waiter of the `_pending` map: the expected agent, completion state
and stored outcome. The result payload type is abstract (`α` stands for the
JSON value). -/
structure PendingEntry (α : Type) where
  agent_id : List Char
  completed : Bool
  ok : Bool
  result : Option α
  error : Option AgentRoutingError

/-- A decoded response payload: the fields `_on_response` reads. -/
structure ResponsePayload (α : Type) where
  request_id : Option (List Char)
  ok : Bool
  result : Option α
  error : Option AgentRoutingError

/-- `timeout = max(0.5, float(timeout_seconds))`. -/
def request_wait_seconds (timeout_seconds : ℚ) : ℚ := max (1/2) timeout_seconds

/-- `self._pending.get(request_id)`. -/
def lookupPending {α : Type} : List (List Char × PendingEntry α) → List Char →
    Option (PendingEntry α)
  | [], _ => none
  | (k, st) :: rest, rid => if k = rid then some st else lookupPending rest rid

/-- `self._pending.pop(request_id, None)`'s effect on the map (keys are
unique, so removing every binding of the key is the dict `pop`). -/
def removePending {α : Type} (pending : List (List Char × PendingEntry α))
    (rid : List Char) : List (List Char × PendingEntry α) :=
  pending.filter (fun e => decide (e.1 ≠ rid))

/-- `state[request_id] = new` for an existing waiter. -/
def setPending {α : Type} : List (List Char × PendingEntry α) → List Char →
    PendingEntry α → List (List Char × PendingEntry α)
  | [], _, _ => []
  | (k, st) :: rest, rid, new =>
    if k = rid then (k, new) :: rest else (k, st) :: setPending rest rid new

/-- The tail of `_request` after `event.wait(timeout)` returns: pop the
waiter and fail `agent_timeout`/504 unless a response completed it. (A
completed entry is subsequently unpacked into the agent's result or error;
that unpacking consumes only the returned entry.) -/
def finish_request {α : Type} (pending : List (List Char × PendingEntry α))
    (request_id : List Char) :
    List (List Char × PendingEntry α) × Except AgentRoutingError (PendingEntry α) :=
  match lookupPending pending request_id with
  | none =>
    (removePending pending request_id, Except.error ⟨"agent_timeout", 504⟩)
  | some st =>
    if st.completed = false then
      (removePending pending request_id, Except.error ⟨"agent_timeout", 504⟩)
    else (removePending pending request_id, Except.ok st)

/-- `_on_response` on an already-parsed topic `(agent_id, request_id)` and
payload: returns the new pending map and the request id whose event is set
(`none` when the response is dropped). -/
def on_response {α : Type} (pending : List (List Char × PendingEntry α))
    (agent_id request_id : List Char) (payload : ResponsePayload α) :
    List (List Char × PendingEntry α) × Option (List Char) :=
  if agent_id = [] ∨ request_id = [] then (pending, none)
  else
    match lookupPending pending request_id with
    | none => (pending, none)
    | some st =>
      if pyStrip st.agent_id = [] ∨ pyStrip st.agent_id ≠ agent_id then (pending, none)
      else if pyStrip ((payload.request_id).getD []) ≠ [] ∧
          pyStrip ((payload.request_id).getD []) ≠ request_id then (pending, none)
      else
        (setPending pending request_id
          { st with
            completed := true
            ok := payload.ok
            result := if payload.ok then payload.result else none
            error := if payload.ok then none
              else some ((payload.error).getD ⟨"agent_error", 400⟩) },
          some request_id)

end AgentCommandClientHub

/-! ## AgentRegistry (src/backend/agents/agent_registry.py) -/

namespace AgentRegistry

/-- `str(raw_assigned).strip() if raw_assigned is not None else ""`,
then `assigned_agent_id or None`. -/
def normalized_assigned : Option (List Char) → Option (List Char)
  | none => none
  | some raw => if pyStrip raw = [] then none else some (pyStrip raw)

/-- `AgentRegistry.get_agent_by_id` over the live-agent id set: the returned
agent is identified by its id. -/
def get_agent_by_id (live : List (List Char)) (agent_id : List Char) :
    Except AgentRoutingError (List Char) :=
  if agent_id = [] then Except.error ⟨"agent_required", 400⟩
  else if live.contains agent_id then Except.ok agent_id
  else Except.error ⟨"agent_offline", 503⟩

/-- `AgentRegistry.resolve_agent_for_remote`: `live` is the key list of the
in-memory `_agents` dict (`_get_active_ids` takes its key set, embedded as
`dedup`). The result pairs the resolved agent id with the agent id persisted
into the remote's `assigned_agent_id`, if any. -/
def resolve_agent_for_remote (live : List (List Char))
    (assigned_raw : Option (List Char)) :
    Except AgentRoutingError (List Char × Option (List Char)) :=
  match normalized_assigned assigned_raw with
  | some aid => (get_agent_by_id live aid).map (fun a => (a, none))
  | none =>
    match live.dedup with
    | [] => Except.error ⟨"no_agents", 503⟩
    | [selected] => (get_agent_by_id live selected).map (fun a => (a, some selected))
    | _ => Except.error ⟨"agent_required", 400⟩

end AgentRegistry

/-! ## IrLearningService start/stop (src/backend/electronics/ir_learning_service.py) -/

namespace IrLearningService

/-- The interesting control points of one `start()` call: `idle` before the
first locked block, `checked` after passing the `self._session is not None`
check and releasing the lock (the database work runs here, unlocked),
`done_ok` after the second locked block assigned the session and `start`
returned success, `done_err` after raising `SessionAlreadyRunning`. -/
inductive ThreadPC where
  | idle
  | checked
  | done_ok
  | done_err
deriving DecidableEq

/-- Shared state (`self._session is not None`) and the control points of two
concurrent `start()` callers. -/
structure RaceState where
  session : Bool
  t1 : ThreadPC
  t2 : ThreadPC
deriving DecidableEq

/-- Interleaving semantics of two concurrent `start()` calls with no
intervening `stop()`: each lock-protected block of the source is one atomic
step; the lock is released between the session check and the session
assignment, so another thread may run in between. -/
inductive StartStep : RaceState → RaceState → Prop where
  | check1_pass (s : RaceState) (h1 : s.t1 = ThreadPC.idle) (h2 : s.session = false) :
      StartStep s { s with t1 := ThreadPC.checked }
  | check1_fail (s : RaceState) (h1 : s.t1 = ThreadPC.idle) (h2 : s.session = true) :
      StartStep s { s with t1 := ThreadPC.done_err }
  | set1 (s : RaceState) (h1 : s.t1 = ThreadPC.checked) :
      StartStep s { s with session := true, t1 := ThreadPC.done_ok }
  | check2_pass (s : RaceState) (h1 : s.t2 = ThreadPC.idle) (h2 : s.session = false) :
      StartStep s { s with t2 := ThreadPC.checked }
  | check2_fail (s : RaceState) (h1 : s.t2 = ThreadPC.idle) (h2 : s.session = true) :
      StartStep s { s with t2 := ThreadPC.done_err }
  | set2 (s : RaceState) (h1 : s.t2 = ThreadPC.checked) :
      StartStep s { s with session := true, t2 := ThreadPC.done_ok }

end IrLearningService

/-! ## PairingManagerHub.open_pairing (src/backend/connections/pairing_manager_hub.py) -/

namespace PairingManagerHub

/-- `duration = int(duration_seconds or 0)`, then clamp into `[10, 3600]`
(two sequential `if` statements in the source). -/
def duration_or_zero : Option Int → Int
  | none => 0
  | some v => v

def open_pairing_duration (duration_seconds : Option Int) : Int :=
  if duration_or_zero duration_seconds < 10 then 10
  else if duration_or_zero duration_seconds > 3600 then 3600
  else duration_or_zero duration_seconds

/-- The duration-derived outputs of `open_pairing`: the `expires_at`
published in the retained payload and the auto-close `threading.Timer`
delay. Session id and nonce are fresh random hex strings, not tracked. -/
structure OpenPairingResult where
  expires_at : ℚ
  timer_seconds : Int

/-- `PairingManagerHub.open_pairing`: fails only when MQTT is not connected;
the duration is clamped, never rejected. -/
def open_pairing (mqtt_connected : Bool) (now : ℚ)
    (duration_seconds : Option Int) : Except String OpenPairingResult :=
  if mqtt_connected = false then Except.error "mqtt_not_connected"
  else
    Except.ok
      { expires_at := now + (open_pairing_duration duration_seconds : ℚ)
        timer_seconds := open_pairing_duration duration_seconds }

end PairingManagerHub

/-! ## Theorems -/

theorem natDigitsAux_fuel (n f g : Nat) (hf : n < f) (hg : n < g) :
    natDigitsAux f n = natDigitsAux g n := by
  induction n using Nat.strong_induction_on generalizing f g with
  | _ n ih =>
    match f, g with
    | f' + 1, g' + 1 =>
      simp only [natDigitsAux]
      by_cases h : n < 10
      · simp [h]
      · have hn : 0 < n := by omega
        have hdiv : n / 10 < n := Nat.div_lt_self hn (by norm_num)
        simp only [h, if_false]
        rw [ih (n / 10) hdiv f' g' (by omega) (by omega)]
theorem natDigits_eq (n : Nat) :
    natDigits n =
      if n < 10 then [Nat.digitChar n] else natDigits (n / 10) ++ [Nat.digitChar (n % 10)] := by
  show natDigitsAux (n + 1) n = _
  rw [natDigitsAux]
  by_cases h : n < 10
  · simp [h]
  · have hn : 0 < n := by omega
    have hdiv : n / 10 < n := Nat.div_lt_self hn (by norm_num)
    simp only [h, if_false]
    rw [natDigitsAux_fuel (n / 10) n (n / 10 + 1) (by omega) (by omega)]
    rfl
theorem digit_char_props : ∀ m, m < 10 →
    (Nat.digitChar m).isDigit = true ∧ (Nat.digitChar m).isWhitespace = false ∧
    Nat.digitChar m ≠ '+' ∧ Nat.digitChar m ≠ '-' ∧ charVal (Nat.digitChar m) = m := by
  decide
theorem natDigits_mem {n : Nat} : ∀ c ∈ natDigits n, ∃ m, m < 10 ∧ c = Nat.digitChar m := by
  induction n using Nat.strong_induction_on with
  | _ n ih =>
    rw [natDigits_eq]
    by_cases h : n < 10
    · simp only [h, if_true, List.mem_singleton]
      exact fun c hc => ⟨n, h, hc⟩
    · have hn : 0 < n := by omega
      have hdiv : n / 10 < n := Nat.div_lt_self hn (by norm_num)
      simp only [h, if_false, List.mem_append, List.mem_singleton]
      intro c hc
      rcases hc with hc | hc
      · exact ih (n / 10) hdiv c hc
      · exact ⟨n % 10, Nat.mod_lt _ (by norm_num), hc⟩
theorem natDigits_ne_nil (n : Nat) : natDigits n ≠ [] := by
  rw [natDigits_eq]
  by_cases h : n < 10 <;> simp [h]
theorem digitsVal_append_single (xs : List Char) (c : Char) :
    digitsVal (xs ++ [c]) = 10 * digitsVal xs + charVal c := by
  simp [digitsVal, List.foldl_append]
theorem digitsVal_natDigits (n : Nat) : digitsVal (natDigits n) = n := by
  induction n using Nat.strong_induction_on with
  | _ n ih =>
    rw [natDigits_eq]
    by_cases h : n < 10
    · simp only [h, if_true]
      have := (digit_char_props n h).2.2.2.2
      simp [digitsVal, charVal] at this ⊢
      omega
    · have hn : 0 < n := by omega
      have hdiv : n / 10 < n := Nat.div_lt_self hn (by norm_num)
      simp only [h, if_false]
      rw [digitsVal_append_single, ih (n / 10) hdiv,
        (digit_char_props (n % 10) (Nat.mod_lt _ (by norm_num))).2.2.2.2]
      omega
theorem pyDigits?_natDigits (n : Nat) : pyDigits? (natDigits n) = some n := by
  have hne := natDigits_ne_nil n
  have hall : (natDigits n).all Char.isDigit = true := by
    rw [List.all_eq_true]
    intro c hc
    obtain ⟨m, hm, rfl⟩ := natDigits_mem c hc
    exact (digit_char_props m hm).1
  simp [pyDigits?, hne, hall, digitsVal_natDigits, List.isEmpty_iff]
theorem natDigits_head_not_sign (n : Nat) :
    ∀ c, (natDigits n).head? = some c → c ≠ '+' ∧ c ≠ '-' := by
  intro c hc
  have hm : c ∈ natDigits n := by
    cases h : natDigits n with
    | nil => simp [h] at hc
    | cons a t => rw [h] at hc; simp at hc; subst hc; simp [h]
  obtain ⟨m, hmlt, rfl⟩ := natDigits_mem c hm
  exact ⟨(digit_char_props m hmlt).2.2.1, (digit_char_props m hmlt).2.2.2.1⟩
/-- Decimal print/parse round trip: Python `int(str(v)) = v`. -/
theorem pyInt?_intStr (v : Int) : pyInt? (intStr v) = some v := by
  by_cases hv : v < 0
  · have h1 : pyInt? ('-' :: natDigits v.natAbs) =
        (pyDigits? (natDigits v.natAbs)).map (fun n => -(n : Int)) := rfl
    have habs : ((v.natAbs : Int)) = -v := Int.ofNat_natAbs_of_nonpos (le_of_lt hv)
    simp only [intStr, if_pos hv, h1, pyDigits?_natDigits]
    simp [habs]
  · simp only [intStr, if_neg hv]
    cases h : natDigits v.natAbs with
    | nil => exact absurd h (natDigits_ne_nil _)
    | cons c rest =>
      have hc : (natDigits v.natAbs).head? = some c := by rw [h]; rfl
      obtain ⟨hcp, hcm⟩ := natDigits_head_not_sign _ c hc
      have h2 : pyInt? (c :: rest) = (pyDigits? (c :: rest)).map (fun n => (n : Int)) := by
        rw [pyInt?]
        all_goals intro rest2 hEq
        all_goals first
          | exact hcp (List.cons.inj hEq).1.symm
          | exact hcp (List.cons.inj hEq).1
          | exact hcm (List.cons.inj hEq).1.symm
          | exact hcm (List.cons.inj hEq).1
      rw [h2, ← h, pyDigits?_natDigits]
      have habs : ((v.natAbs : Int)) = v := Int.natAbs_of_nonneg (not_lt.mp hv)
      simp [habs]
theorem splitWsAux_word (w : List Char) (hw : ∀ c ∈ w, c.isWhitespace = false) :
    ∀ rest acc, splitWsAux (w ++ rest) acc = splitWsAux rest (w.reverse ++ acc) := by
  induction w with
  | nil => simp
  | cons c w ih =>
    intro rest acc
    have hc : c.isWhitespace = false := hw c (by simp)
    show splitWsAux (c :: (w ++ rest)) acc = splitWsAux rest ((c :: w).reverse ++ acc)
    simp only [splitWsAux, hc, Bool.false_eq_true, if_false]
    rw [List.reverse_cons, List.append_assoc, List.singleton_append]
    exact ih (fun d hd => hw d (List.mem_cons_of_mem _ hd)) rest (c :: acc)
theorem splitWs_joinWords (ws : List (List Char))
    (h : ∀ w ∈ ws, w ≠ [] ∧ ∀ c ∈ w, c.isWhitespace = false) :
    splitWs (joinWords ws) = ws := by
  induction ws with
  | nil => rfl
  | cons w ws ih =>
    obtain ⟨hwne, hwf⟩ := h w (by simp)
    cases ws with
    | nil =>
      have hstep : splitWsAux (w ++ []) [] = splitWsAux [] (w.reverse ++ []) :=
        splitWsAux_word w hwf [] []
      rw [List.append_nil] at hstep
      have hne : (w.reverse ++ []).isEmpty = false := by
        simp [List.isEmpty_iff, hwne]
      show splitWsAux w [] = [w]
      rw [hstep]
      simp only [splitWsAux, hne, Bool.false_eq_true, if_false]
      simp
    | cons w2 ws2 =>
      have hstep : splitWsAux (w ++ ' ' :: joinWords (w2 :: ws2)) [] =
          splitWsAux (' ' :: joinWords (w2 :: ws2)) (w.reverse ++ []) :=
        splitWsAux_word w hwf _ []
      have hws : (' ' : Char).isWhitespace = true := by decide
      have hne : (w.reverse ++ []).isEmpty = false := by
        simp [List.isEmpty_iff, hwne]
      show splitWsAux (w ++ ' ' :: joinWords (w2 :: ws2)) [] = w :: w2 :: ws2
      rw [hstep]
      simp only [splitWsAux, hws, if_true, hne, Bool.false_eq_true, if_false]
      rw [List.append_nil, List.reverse_reverse]
      have hrest := ih (fun x hx => h x (by simp [hx]))
      show w :: splitWs (joinWords (w2 :: ws2)) = w :: w2 :: ws2
      rw [hrest]
theorem intStr_not_ws (v : Int) : ∀ c ∈ intStr v, c.isWhitespace = false := by
  intro c hc
  have hdig : ∀ c ∈ natDigits v.natAbs, c.isWhitespace = false := by
    intro d hd
    obtain ⟨m, hm, rfl⟩ := natDigits_mem d hd
    exact (digit_char_props m hm).2.1
  by_cases hv : v < 0
  · simp only [intStr, if_pos hv] at hc
    rcases List.mem_cons.mp hc with rfl | hc
    · decide
    · exact hdig c hc
  · simp only [intStr, if_neg hv] at hc
    exact hdig c hc
theorem intStr_ne_nil (v : Int) : intStr v ≠ [] := by
  by_cases hv : v < 0 <;> simp [intStr, hv, natDigits_ne_nil]

namespace IrSignalParser

theorem mergeRun_spec (rest : List Int) : ∀ cur : Int, cur ≠ 0 → (∀ v ∈ rest, v ≠ 0) →
    ∃ h t, mergeRun cur rest = h :: t ∧ (0 < h ↔ 0 < cur) ∧
      (∀ x ∈ h :: t, x ≠ 0) ∧ List.Chain' OppSign (h :: t) := by
  induction rest with
  | nil =>
    intro cur hcur _
    exact ⟨cur, [], rfl, Iff.rfl, by simpa using hcur, List.chain'_singleton cur⟩
  | cons v rest ih =>
    intro cur hcur hall
    have hv : v ≠ 0 := hall v (by simp)
    have hrest : ∀ x ∈ rest, x ≠ 0 := fun x hx => hall x (by simp [hx])
    by_cases hss : (cur > 0 ∧ v > 0) ∨ (cur < 0 ∧ v < 0)
    · have hsum : cur + v ≠ 0 := by rcases hss with ⟨h1, h2⟩ | ⟨h1, h2⟩ <;> omega
      obtain ⟨h, t, heq, hsign, hnz, hch⟩ := ih (cur + v) hsum hrest
      refine ⟨h, t, ?_, ?_, hnz, hch⟩
      · rw [mergeRun, if_pos hss, heq]
      · rw [hsign]; rcases hss with ⟨h1, h2⟩ | ⟨h1, h2⟩ <;> constructor <;> intro <;> omega
    · obtain ⟨h, t, heq, hsign, hnz, hch⟩ := ih v hv hrest
      refine ⟨cur, h :: t, ?_, Iff.rfl, ?_, ?_⟩
      · rw [mergeRun, if_neg hss, heq]
      · intro x hx
        rcases List.mem_cons.mp hx with rfl | hx
        · exact hcur
        · exact hnz x hx
      · rw [List.chain'_cons']
        refine ⟨?_, hch⟩
        intro y hy
        rw [List.head?_cons, Option.mem_some_iff] at hy
        subst hy
        have hvh : 0 < h ↔ 0 < v := hsign
        have hh : h ≠ 0 := hnz h (by simp)
        unfold OppSign
        omega
theorem mergeRunDrop_spec (rest : List Int) : ∀ cur : Int, cur ≠ 0 →
    ∃ h t, mergeRunDrop cur rest = h :: t ∧ (0 < h ↔ 0 < cur) ∧
      (∀ x ∈ h :: t, x ≠ 0) ∧ List.Chain' OppSign (h :: t) := by
  induction rest with
  | nil =>
    intro cur hcur
    exact ⟨cur, [], rfl, Iff.rfl, by simpa using hcur, List.chain'_singleton cur⟩
  | cons v rest ih =>
    intro cur hcur
    by_cases hv : v = 0
    · obtain ⟨h, t, heq, hsign, hnz, hch⟩ := ih cur hcur
      exact ⟨h, t, by rw [mergeRunDrop, if_pos hv, heq], hsign, hnz, hch⟩
    · by_cases hss : (cur > 0 ∧ v > 0) ∨ (cur < 0 ∧ v < 0)
      · have hsum : cur + v ≠ 0 := by rcases hss with ⟨h1, h2⟩ | ⟨h1, h2⟩ <;> omega
        obtain ⟨h, t, heq, hsign, hnz, hch⟩ := ih (cur + v) hsum
        refine ⟨h, t, ?_, ?_, hnz, hch⟩
        · rw [mergeRunDrop, if_neg hv, if_pos hss, heq]
        · rw [hsign]; rcases hss with ⟨h1, h2⟩ | ⟨h1, h2⟩ <;> constructor <;> intro <;> omega
      · obtain ⟨h, t, heq, hsign, hnz, hch⟩ := ih v hv
        refine ⟨cur, h :: t, ?_, Iff.rfl, ?_, ?_⟩
        · rw [mergeRunDrop, if_neg hv, if_neg hss, heq]
        · intro x hx
          rcases List.mem_cons.mp hx with rfl | hx
          · exact hcur
          · exact hnz x hx
        · rw [List.chain'_cons']
          refine ⟨?_, hch⟩
          intro y hy
          rw [List.head?_cons, Option.mem_some_iff] at hy
          subst hy
          have hvh : 0 < h ↔ 0 < v := hsign
          have hh : h ≠ 0 := hnz h (by simp)
          unfold OppSign
          omega
theorem merge_dup_nonzero (l : List Int) : ∀ x ∈ merge_dup l, x ≠ 0 := by
  induction l with
  | nil => simp [merge_dup]
  | cons v rest ih =>
    by_cases hv : v = 0
    · rw [merge_dup, if_pos hv]; exact ih
    · rw [merge_dup, if_neg hv]
      obtain ⟨h, t, heq, _, hnz, _⟩ := mergeRunDrop_spec rest v hv
      rw [heq]; exact hnz
theorem mem_dropTrailingSpaces {l : List Int} {x : Int} (hx : x ∈ dropTrailingSpaces l) :
    x ∈ l := by
  unfold dropTrailingSpaces at hx
  rw [List.mem_reverse] at hx
  rw [← List.mem_reverse]
  exact (List.dropWhile_sublist _).mem hx
theorem merge_alt_spec (l : List Int) (hne : ¬ l.isEmpty) (hnz : ∀ x ∈ l, x ≠ 0) :
    ∃ h t, merge_alt l = h :: t ∧ (∀ x ∈ h :: t, x ≠ 0) ∧ List.Chain' OppSign (h :: t) := by
  cases l with
  | nil => simp at hne
  | cons v rest =>
    obtain ⟨h, t, heq, _, hz, hch⟩ :=
      mergeRun_spec rest v (hnz v (by simp)) (fun x hx => hnz x (by simp [hx]))
    exact ⟨h, t, heq, hz, hch⟩
theorem normalize_ok_spec (pulses : List Int) (l : List Int)
    (h : normalize pulses = Except.ok l) (hne : l ≠ []) :
    (∀ v, l.head? = some v → 0 < v) ∧ (∀ v, l.getLast? = some v → 0 < v) ∧
      (∀ v ∈ l, v ≠ 0) ∧ List.Chain' OppSign l := by
  unfold normalize at h
  split at h
  · cases h
  · split at h
    · cases h; exact absurd rfl hne
    · rename_i h1 h2
      split at h
      · cases h
      · split at h
        · cases h
        · rename_i h3 h4
          cases h
          have hnz2 : ∀ x ∈ dropTrailingSpaces (merge_dup pulses), x ≠ 0 :=
            fun x hx => merge_dup_nonzero pulses x (mem_dropTrailingSpaces hx)
          obtain ⟨hd, tl, heq, hz, hch⟩ :=
            merge_alt_spec (dropTrailingSpaces (merge_dup pulses)) (by simpa using h2) hnz2
          rw [heq] at h3 h4 ⊢
          refine ⟨?_, ?_, hz, hch⟩
          · intro v hv
            rw [List.head?_cons, Option.some_inj] at hv
            have hzv := hz hd (by simp)
            have hneg : ¬ hd < 0 := fun hlt => h3 (by simp [headNeg, hlt])
            omega
          · intro v hv
            have hvm : v ∈ hd :: tl := by
              have hmem : v ∈ (hd :: tl).getLast? := by rw [hv]; exact rfl
              exact List.mem_of_mem_getLast? hmem
            have hneg : ¬ v < 0 := fun hlt => h4 (by simp [lastNeg, hv, hlt])
            have hzv := hz v hvm
            omega
/-- Pulse-codec round trip: `decode_pulses(encode_pulses(p)) = p` for every
integer pulse list. -/
theorem decode_encode (p : List Int) : decode_pulses (encode_pulses p) = some p := by
  unfold decode_pulses encode_pulses
  rw [splitWs_joinWords (p.map intStr)
    (fun w hw => by
      obtain ⟨v, _, rfl⟩ := List.mem_map.mp hw
      exact ⟨intStr_ne_nil v, intStr_not_ws v⟩)]
  induction p with
  | nil => rfl
  | cons v p ih => rw [List.map_cons, decodeInts, pyInt?_intStr v, ih]

end IrSignalParser

namespace IrSignalAggregator

theorem lookup_addCluster_self (acc : List ((Nat × List Int) × List Nat))
    (key : Nat × List Int) (idx : Nat) :
    lookupCluster (addCluster acc key idx) key =
      some ((lookupCluster acc key).getD [] ++ [idx]) := by
  induction acc with
  | nil => simp [addCluster, lookupCluster]
  | cons c rest ih =>
    obtain ⟨k, is⟩ := c
    by_cases hk : k = key
    · subst hk
      simp [addCluster, lookupCluster]
    · rw [addCluster, if_neg hk, lookupCluster, if_neg hk, ih, lookupCluster, if_neg hk]

theorem lookup_addCluster_other (acc : List ((Nat × List Int) × List Nat))
    (key key2 : Nat × List Int) (idx : Nat) (h : key2 ≠ key) :
    lookupCluster (addCluster acc key idx) key2 = lookupCluster acc key2 := by
  induction acc with
  | nil =>
    have hne : ¬ key = key2 := fun hh => h hh.symm
    simp [addCluster, lookupCluster, hne]
  | cons c rest ih =>
    obtain ⟨k, is⟩ := c
    by_cases hk : k = key
    · subst hk
      rw [addCluster, if_pos rfl, lookupCluster, lookupCluster]
      have : ¬ k = key2 := fun hh => h hh.symm
      rw [if_neg this, if_neg this]
    · rw [addCluster, if_neg hk, lookupCluster, lookupCluster]
      by_cases hk2 : k = key2
      · rw [if_pos hk2, if_pos hk2]
      · rw [if_neg hk2, if_neg hk2, ih]

theorem keys_addCluster (acc : List ((Nat × List Int) × List Nat))
    (key : Nat × List Int) (idx : Nat) :
    (addCluster acc key idx).map Prod.fst =
      if key ∈ acc.map Prod.fst then acc.map Prod.fst
      else acc.map Prod.fst ++ [key] := by
  induction acc with
  | nil => simp [addCluster]
  | cons c rest ih =>
    obtain ⟨k, is⟩ := c
    by_cases hk : k = key
    · subst hk
      simp [addCluster]
    · rw [addCluster, if_neg hk]
      have hne : ¬ key = k := fun hh => hk hh.symm
      by_cases hmem : key ∈ rest.map Prod.fst
      · simp [ih, hmem, hne]
      · simp [ih, hmem, hne]

theorem nodup_keys_addCluster (acc : List ((Nat × List Int) × List Nat))
    (key : Nat × List Int) (idx : Nat) (h : (acc.map Prod.fst).Nodup) :
    ((addCluster acc key idx).map Prod.fst).Nodup := by
  rw [keys_addCluster]
  by_cases hmem : key ∈ acc.map Prod.fst
  · rwa [if_pos hmem]
  · rw [if_neg hmem, List.nodup_append]
    exact ⟨h, List.nodup_singleton key, by simpa [List.disjoint_singleton] using hmem⟩

theorem nodup_keys_foldl (ps : List (Nat × List Int)) :
    ∀ acc, (acc.map Prod.fst).Nodup → ((ps.foldl clusterStep acc).map Prod.fst).Nodup := by
  induction ps with
  | nil => exact fun acc h => h
  | cons p ps ih =>
    intro acc h
    rw [List.foldl_cons]
    apply ih
    unfold clusterStep
    by_cases hp : p.2.isEmpty
    · rwa [if_pos hp]
    · rw [if_neg hp]
      exact nodup_keys_addCluster acc _ p.1 h

theorem nodup_keys_buildClusters (frames : List (List Int)) :
    ((buildClusters frames).map Prod.fst).Nodup :=
  nodup_keys_foldl frames.enum [] (by simp)

theorem lookup_foldl (ps : List (Nat × List Int)) :
    ∀ acc key,
      lookupCluster (ps.foldl clusterStep acc) key =
        match lookupCluster acc key with
        | some is => some (is ++ pairIdxs ps key)
        | none =>
          if (pairIdxs ps key).isEmpty then none else some (pairIdxs ps key) := by
  induction ps with
  | nil =>
    intro acc key
    cases h : lookupCluster acc key <;> simp [pairIdxs, h]
  | cons p ps ih =>
    intro acc key
    rw [List.foldl_cons]
    by_cases hp : p.2.isEmpty
    · have hcond : (!p.2.isEmpty && decide ((p.2.length, sign_pattern p.2) = key)) = false := by
        simp [hp]
      have hpair : pairIdxs (p :: ps) key = pairIdxs ps key := by
        unfold pairIdxs
        rw [List.filter_cons, if_neg (by simp [hcond])]
      rw [hpair, show clusterStep acc p = acc from by unfold clusterStep; rw [if_pos hp]]
      exact ih acc key
    · by_cases hkey : (p.2.length, sign_pattern p.2) = key
      · have hcond : (!p.2.isEmpty && decide ((p.2.length, sign_pattern p.2) = key)) = true := by
          simp [hp, hkey]
        have hpair : pairIdxs (p :: ps) key = p.1 :: pairIdxs ps key := by
          unfold pairIdxs
          rw [List.filter_cons, if_pos (by simp [hcond])]
          rfl
        have hstep : clusterStep acc p = addCluster acc key p.1 := by
          unfold clusterStep
          rw [if_neg hp, hkey]
        rw [hpair, hstep, ih _ key, lookup_addCluster_self]
        cases h : lookupCluster acc key <;> simp [h]
      · have hcond : (!p.2.isEmpty && decide ((p.2.length, sign_pattern p.2) = key)) = false := by
          simp [hp, hkey]
        have hpair : pairIdxs (p :: ps) key = pairIdxs ps key := by
          unfold pairIdxs
          rw [List.filter_cons, if_neg (by simp [hcond])]
        have hstep : clusterStep acc p = addCluster acc (p.2.length, sign_pattern p.2) p.1 := by
          unfold clusterStep
          rw [if_neg hp]
        rw [hpair, hstep, ih _ key,
          lookup_addCluster_other acc _ key p.1 (fun hh => hkey hh.symm)]

theorem lookup_buildClusters (frames : List (List Int)) (key : Nat × List Int) :
    lookupCluster (buildClusters frames) key =
      if (clusterIndices frames key).isEmpty then none
      else some (clusterIndices frames key) := by
  unfold buildClusters clusterIndices
  rw [lookup_foldl frames.enum [] key]
  rfl

theorem mem_of_lookup (cs : List ((Nat × List Int) × List Nat))
    (key : Nat × List Int) (is : List Nat) (h : lookupCluster cs key = some is) :
    (key, is) ∈ cs := by
  induction cs with
  | nil => cases h
  | cons c rest ih =>
    obtain ⟨k, js⟩ := c
    rw [lookupCluster] at h
    by_cases hk : k = key
    · rw [if_pos hk] at h
      cases h
      subst hk
      simp
    · rw [if_neg hk] at h
      exact List.mem_cons_of_mem _ (ih h)

theorem lookup_of_mem_nodup (cs : List ((Nat × List Int) × List Nat))
    (hnd : (cs.map Prod.fst).Nodup) (key : Nat × List Int) (is : List Nat)
    (h : (key, is) ∈ cs) : lookupCluster cs key = some is := by
  induction cs with
  | nil => cases h
  | cons c rest ih =>
    obtain ⟨k, js⟩ := c
    rw [List.map_cons, List.nodup_cons] at hnd
    rcases List.mem_cons.mp h with heq | hmem
    · cases heq
      rw [lookupCluster, if_pos rfl]
    · have hkne : ¬ k = key := by
        intro hk
        subst hk
        exact hnd.1 (List.mem_map.mpr ⟨(k, is), hmem, rfl⟩)
      rw [lookupCluster, if_neg hkne]
      exact ih hnd.2 hmem

theorem foldl_max_spec (rest : List ((Nat × List Int) × List Nat)) :
    ∀ c, (rest.foldl (fun best x => if best.2.length < x.2.length then x else best) c)
        ∈ c :: rest ∧
      c.2.length ≤
        (rest.foldl (fun best x => if best.2.length < x.2.length then x else best) c).2.length ∧
      ∀ x ∈ rest, x.2.length ≤
        (rest.foldl (fun best x => if best.2.length < x.2.length then x else best) c).2.length := by
  induction rest with
  | nil => exact fun c => ⟨by simp, le_refl _, by simp⟩
  | cons x rest ih =>
    intro c
    rw [List.foldl_cons]
    obtain ⟨hmem, hle, hall⟩ := ih (if c.2.length < x.2.length then x else c)
    have hcle : c.2.length ≤ (if c.2.length < x.2.length then x else c).2.length := by
      split <;> omega
    have hxle : x.2.length ≤ (if c.2.length < x.2.length then x else c).2.length := by
      split <;> omega
    refine ⟨?_, le_trans hcle hle, ?_⟩
    · rcases List.mem_cons.mp hmem with heq | hmem2
      · rw [heq]
        split
        · simp
        · simp
      · simp [hmem2]
    · intro y hy
      rcases List.mem_cons.mp hy with rfl | hy2
      · exact le_trans hxle hle
      · exact hall y hy2

theorem pickBest_spec (cs : List ((Nat × List Int) × List Nat))
    (best : (Nat × List Int) × List Nat) (h : pickBest cs = some best) :
    best ∈ cs ∧ ∀ c ∈ cs, c.2.length ≤ best.2.length := by
  cases cs with
  | nil => cases h
  | cons c rest =>
    rw [pickBest] at h
    cases h
    obtain ⟨hmem, hle, hall⟩ := foldl_max_spec rest c
    refine ⟨hmem, ?_⟩
    intro y hy
    rcases List.mem_cons.mp hy with rfl | hy2
    · exact hle
    · exact hall y hy2

theorem mem_clusterIndices {frames : List (List Int)} {key : Nat × List Int} {i : Nat}
    (h : i ∈ clusterIndices frames key) :
    i < frames.length ∧ (frames.getD i []).isEmpty = false ∧
      (frames.getD i []).length = key.1 ∧ sign_pattern (frames.getD i []) = key.2 := by
  unfold clusterIndices pairIdxs at h
  obtain ⟨p, hp, rfl⟩ := List.mem_map.mp h
  obtain ⟨hmem, hcond⟩ := List.mem_filter.mp hp
  rw [Bool.and_eq_true, Bool.not_eq_eq_eq_not, Bool.not_true, decide_eq_true_eq] at hcond
  have hget : frames[p.1]? = some p.2 := List.mem_enum_iff_getElem?.mp hmem
  have hlt : p.1 < frames.length := by
    by_contra hge
    rw [List.getElem?_eq_none (by omega)] at hget
    cases hget
  have hgd : frames.getD p.1 [] = p.2 := by
    rw [List.getD_eq_getElem?_getD, hget]
    rfl
  rw [hgd]
  exact ⟨hlt, hcond.1, congrArg Prod.fst hcond.2, congrArg Prod.snd hcond.2⟩

theorem clusterIndices_of_mem (frames : List (List Int)) (f : List Int)
    (hf : f ∈ frames) (hfne : f ≠ []) :
    clusterIndices frames (f.length, sign_pattern f) ≠ [] := by
  obtain ⟨j, hj, hget⟩ := List.mem_iff_getElem.mp hf
  intro hempty
  have hjmem : j ∈ clusterIndices frames (f.length, sign_pattern f) := by
    unfold clusterIndices pairIdxs
    apply List.mem_map.mpr
    refine ⟨(j, f), ?_, rfl⟩
    apply List.mem_filter.mpr
    refine ⟨List.mem_enum_iff_getElem?.mpr (by rw [List.getElem?_eq_getElem hj, hget]), ?_⟩
    simp [List.isEmpty_iff, hfne]
  rw [hempty] at hjmem
  cases hjmem

theorem aggregate_ok_spec (frames : List (List Int)) (k : Int) (r : ℚ)
    (agg : List Int) (idxs : List Nat) (s : ℚ)
    (h : aggregate frames k r = Except.ok (agg, idxs, s)) :
    ∃ key, pickBest (buildClusters frames) = some (key, idxs) ∧
      ¬ ((idxs.length : Int) < required frames.length r) ∧
      agg = (List.range key.1).map (fun i =>
        (if 0 < key.2.getD i 0 then 1 else (-1 : Int)) *
          ((max 1 (roundHalfEven (median_int (List.insertionSort (fun a b => a ≤ b)
              (idxs.map (fun idx => ((frames.getD idx []).getD i 0).natAbs))))
            k.toNat * k.toNat) : Nat) : Int)) := by
  unfold aggregate at h
  split at h
  · cases h
  · split at h
    · cases h
    · split at h
      · cases h
      · split at h
        · cases h
        · rename_i heq
          split at h
          · cases h
          · rename_i hreq
            cases h
            exact ⟨_, heq, hreq, rfl⟩

theorem pickBest_buildClusters_eq (frames : List (List Int)) (bk : Nat × List Int)
    (bi : List Nat) (h : pickBest (buildClusters frames) = some (bk, bi)) :
    bi = clusterIndices frames bk ∧
      ∀ key, (clusterIndices frames key).length ≤ bi.length := by
  obtain ⟨hmem, hmax⟩ := pickBest_spec _ _ h
  have hlk := lookup_of_mem_nodup _ (nodup_keys_buildClusters frames) _ _ hmem
  rw [lookup_buildClusters] at hlk
  split at hlk
  · cases hlk
  · constructor
    · exact (Option.some_inj.mp hlk).symm
    · intro key
      by_cases hemp : (clusterIndices frames key).isEmpty
      · rw [List.isEmpty_iff.mp hemp]
        exact Nat.zero_le _
      · have hlk2 := lookup_buildClusters frames key
        rw [if_neg hemp] at hlk2
        have hmem2 := mem_of_lookup _ _ _ hlk2
        simpa using hmax _ hmem2

end IrSignalAggregator

namespace Signals

theorem lookupRow_setRow_isSome (db : List (Int × SignalRow)) (k : Int) (r : SignalRow)
    (b : Int) : (lookupRow (setRow db k r) b).isSome = (lookupRow db b).isSome := by
  induction db with
  | nil => rfl
  | cons c rest ih =>
    obtain ⟨k2, row⟩ := c
    by_cases hk : k2 = k
    · subst hk
      rw [setRow, if_pos rfl, lookupRow, lookupRow]
      by_cases hb : k2 = b
      · rw [if_pos hb, if_pos hb]
        rfl
      · rw [if_neg hb, if_neg hb]
    · rw [setRow, if_neg hk, lookupRow, lookupRow]
      by_cases hb : k2 = b
      · rw [if_pos hb, if_pos hb]
      · rw [if_neg hb, if_neg hb, ih]

theorem lookupRow_append_single (db : List (Int × SignalRow)) (k : Int) (r : SignalRow)
    (b : Int) (h : (lookupRow (db ++ [(k, r)]) b).isSome = true) :
    (lookupRow db b).isSome = true ∨ b = k := by
  induction db with
  | nil =>
    rw [List.nil_append, lookupRow] at h
    by_cases hb : k = b
    · exact Or.inr hb.symm
    · rw [if_neg hb] at h
      cases h
  | cons c rest ih =>
    obtain ⟨k2, row⟩ := c
    rw [List.cons_append, lookupRow] at h
    rw [lookupRow]
    by_cases hb : k2 = b
    · rw [if_pos hb]
      exact Or.inl rfl
    · rw [if_neg hb] at h ⊢
      exact ih h

theorem rowExists_update_hold (db : List (Int × SignalRow)) (bid : Int) (hi : List Char)
    (hr : Option (List Char)) (hg : Option Int) (sc : Int) (q : Option ℚ) (now : ℚ)
    (b : Int) (h : rowExists (update_hold db bid hi hr hg sc q now).1 b = true) :
    rowExists db b = true := by
  unfold rowExists at h ⊢
  unfold update_hold at h
  split at h
  · exact h
  · split at h
    · exact h
    · split at h
      · exact h
      · rwa [lookupRow_setRow_isSome] at h

theorem rowExists_upsert_press (db : List (Int × SignalRow)) (bid : Int) (pi : List Char)
    (pr : Option (List Char)) (sc : Int) (q : Option ℚ) (e : List Char) (now : ℚ)
    (b : Int) (h : rowExists (upsert_press db bid pi pr sc q e now).1 b = true) :
    rowExists db b = true ∨ b = bid := by
  unfold rowExists at h ⊢
  unfold upsert_press at h
  split at h
  · exact Or.inl h
  · split at h
    · exact Or.inl h
    · split at h
      · rw [lookupRow_setRow_isSome] at h
        exact Or.inl h
      · rcases lookupRow_append_single db bid _ b h with hprev | hb
        · exact Or.inl hprev
        · exact Or.inr hb

theorem upsert_press_fail_unchanged (db : List (Int × SignalRow)) (bid : Int)
    (pi : List Char) (pr : Option (List Char)) (sc : Int) (q : Option ℚ) (e : List Char)
    (now : ℚ) (h : (upsert_press db bid pi pr sc q e now).2.isOk = false) :
    (upsert_press db bid pi pr sc q e now).1 = db := by
  unfold upsert_press at h ⊢
  split at h
  · rename_i h1
    rw [if_pos h1]
  · rename_i h1
    rw [if_neg h1]
    split at h
    · rename_i h2
      rw [if_pos h2]
    · rename_i h2
      rw [if_neg h2]
      split at h <;> cases h

theorem rowExists_applyOp (db : List (Int × SignalRow)) (op : SigOp) (b : Int)
    (h : rowExists (applyOp db op).1 b = true) :
    rowExists db b = true ∨
      ∃ pa, op = SigOp.press pa ∧ pa.button_id = b ∧ (applyOp db op).2.isOk = true := by
  cases op with
  | hold a => exact Or.inl (rowExists_update_hold db a.button_id _ _ _ _ _ _ b h)
  | press a =>
    cases hok : (applyOp db (SigOp.press a)).2.isOk with
    | false =>
      have hunch := upsert_press_fail_unchanged db a.button_id _ _ _ _ _ _ hok
      rw [show (applyOp db (SigOp.press a)).1 =
        (upsert_press db a.button_id a.press_initial a.press_repeat a.sample_count_press
          a.quality_score_press a.encoding a.now).1 from rfl, hunch] at h
      exact Or.inl h
    | true =>
      rcases rowExists_upsert_press db a.button_id _ _ _ _ _ _ b h with hprev | hb
      · exact Or.inl hprev
      · exact Or.inr ⟨a, rfl, hb.symm, rfl⟩

theorem update_hold_ok_exists (db : List (Int × SignalRow)) (bid : Int) (hi : List Char)
    (hr : Option (List Char)) (hg : Option Int) (sc : Int) (q : Option ℚ) (now : ℚ)
    (h : (update_hold db bid hi hr hg sc q now).2.isOk = true) :
    rowExists db bid = true := by
  unfold update_hold at h
  split at h
  · cases h
  · split at h
    · cases h
    · split at h
      · cases h
      · rename_i hlk
        unfold rowExists
        rw [hlk]
        rfl

theorem rowExists_runOps (ops : List SigOp) (b : Int)
    (h : rowExists (runOps ops) b = true) :
    ∃ i pa, ops.get? i = some (SigOp.press pa) ∧ pa.button_id = b ∧
      (applyOp (runOps (ops.take i)) (SigOp.press pa)).2.isOk = true := by
  induction ops using List.reverseRecOn with
  | nil => simp [runOps, rowExists, lookupRow] at h
  | append_singleton ops op ih =>
    have hrun : runOps (ops ++ [op]) = (applyOp (runOps ops) op).1 := by
      unfold runOps
      rw [List.foldl_append]
      rfl
    rw [hrun] at h
    rcases rowExists_applyOp _ _ _ h with hprev | ⟨pa, rfl, hb, hok⟩
    · obtain ⟨i, pa, hget, hb, hok⟩ := ih hprev
      have hilt : i < ops.length := by
        by_contra hge
        rw [List.get?_eq_none.mpr (by omega)] at hget
        cases hget
      refine ⟨i, pa, ?_, hb, ?_⟩
      · rw [List.get?_append hilt]
        exact hget
      · rw [List.take_append_of_le_length (le_of_lt hilt)]
        exact hok
    · refine ⟨ops.length, pa, ?_, hb, ?_⟩
      · rw [List.get?_concat_length]
      · rw [List.take_left]
        exact hok

end Signals

namespace IrSenderService

theorem sum_abs_nonneg (l : List Int) : 0 ≤ (l.map (fun v => |v|)).sum := by
  apply List.sum_nonneg
  intro x hx
  obtain ⟨v, _, rfl⟩ := List.mem_map.mp hx
  exact abs_nonneg v

theorem ceil_div_nonneg_spec (X P : Int) (hP : 0 < P) :
    max 1 (ceil_div_nonneg (max 0 X) P) = max 1 (Int.ceil ((X : ℚ) / (P : ℚ))) := by
  by_cases hX : X ≤ 0
  · rw [max_eq_left hX]
    have hdiv : ((0 : Int).toNat + P.toNat - 1) / P.toNat = 0 :=
      Nat.div_eq_of_lt (by omega)
    have h2 : ceil_div_nonneg 0 P = 0 := by
      unfold ceil_div_nonneg
      rw [hdiv]
      rfl
    rw [h2]
    have hq : ((X : ℚ) / (P : ℚ)) ≤ 0 := by
      apply div_nonpos_of_nonpos_of_nonneg
      · exact_mod_cast hX
      · positivity
    have hc : Int.ceil ((X : ℚ) / (P : ℚ)) ≤ 0 := by
      rw [show (0 : Int) = ⌈(0 : ℚ)⌉ from by simp]
      exact Int.ceil_le_ceil hq
    rw [max_eq_left (by omega), max_eq_left (by omega)]
  · push_neg at hX
    rw [max_eq_right (le_of_lt hX)]
    have hxX : ((X.toNat : Int)) = X := Int.toNat_of_nonneg (le_of_lt hX)
    have hpP : ((P.toNat : Int)) = P := Int.toNat_of_nonneg (le_of_lt hP)
    have hp0 : 0 < P.toNat := by omega
    have hx0 : 0 < X.toNat := by omega
    have key : ceil_div_nonneg X P = Int.ceil ((X : ℚ) / (P : ℚ)) := by
      unfold ceil_div_nonneg
      have hub : (X.toNat + P.toNat - 1) / P.toNat * P.toNat ≤ X.toNat + P.toNat - 1 :=
        Nat.div_mul_le_self _ _
      have hlb : X.toNat + P.toNat - 1 <
          P.toNat * ((X.toNat + P.toNat - 1) / P.toNat + 1) :=
        Nat.lt_mul_div_succ _ hp0
      obtain ⟨m, hm⟩ : ∃ m, m = (X.toNat + P.toNat - 1) / P.toNat * P.toNat := ⟨_, rfl⟩
      rw [← hm] at hub
      have hlb2 : X.toNat + P.toNat - 1 < m + P.toNat := by
        calc X.toNat + P.toNat - 1
            < P.toNat * ((X.toNat + P.toNat - 1) / P.toNat + 1) := hlb
          _ = m + P.toNat := by rw [hm]; ring
      have hA : X.toNat ≤ m := by omega
      have hB : m + 1 ≤ X.toNat + P.toNat := by omega
      set n := (X.toNat + P.toNat - 1) / P.toNat with hn
      symm
      rw [Int.ceil_eq_iff]
      have hXq : (X : ℚ) = (X.toNat : ℚ) := by exact_mod_cast hxX.symm
      have hPq : (P : ℚ) = (P.toNat : ℚ) := by exact_mod_cast hpP.symm
      have hmq : (m : ℚ) = (n : ℚ) * (P.toNat : ℚ) := by rw [hm]; push_cast; ring
      have hpq0 : (0 : ℚ) < (P.toNat : ℚ) := by exact_mod_cast hp0
      constructor
      · rw [hXq, hPq, lt_div_iff hpq0]
        have hexp : ((((n : Int)) : ℚ) - 1) * (P.toNat : ℚ) = (m : ℚ) - (P.toNat : ℚ) := by
          rw [hmq]; push_cast; ring
        rw [hexp]
        have hBq : (m : ℚ) + 1 ≤ (X.toNat : ℚ) + (P.toNat : ℚ) := by exact_mod_cast hB
        linarith
      · rw [hXq, hPq, div_le_iff hpq0]
        have hAq : (X.toNat : ℚ) ≤ (m : ℚ) := by exact_mod_cast hA
        rw [show ((((n : Int)) : ℚ)) * (P.toNat : ℚ) = (m : ℚ) from by rw [hmq]; push_cast; ring]
        exact hAq
    rw [key]

end IrSenderService

namespace AgentCommandClientHub

theorem lookupPending_removePending {α : Type}
    (pending : List (List Char × PendingEntry α)) (rid : List Char) :
    lookupPending (removePending pending rid) rid = none := by
  induction pending with
  | nil => rfl
  | cons e rest ih =>
    obtain ⟨k, st⟩ := e
    unfold removePending at ih ⊢
    rw [List.filter_cons]
    by_cases hk : k = rid
    · rw [if_neg (by simp [hk])]
      exact ih
    · rw [if_pos (by simp [hk]), lookupPending, if_neg hk]
      exact ih

end AgentCommandClientHub

/-! ## Claim theorems -/

/-- C1: for every raw token text accepted by `parse_and_normalize`, writing
`(p, g)` for its result, `p` is nonempty, starts positive, ends positive,
contains no zeros and alternates in sign; and the canonical codec
round-trips: `decode_pulses (encode_pulses p) = p`. (Amended: the spec's
re-parse clause through `parse_and_normalize` itself does not hold, because
`encode_pulses` writes non-negative entries without a `+` sign and the token
scanner ignores unsigned number tokens.) -/
theorem C1_normalization_fixpoint (raw : List Char) (p : List Int) (g : Option Int)
    (h : IrSignalParser.parse_and_normalize raw = Except.ok (p, g)) :
    p ≠ [] ∧ (∀ v, p.head? = some v → 0 < v) ∧ (∀ v, p.getLast? = some v → 0 < v) ∧
      (∀ v ∈ p, v ≠ 0) ∧ List.Chain' IrSignalParser.OppSign p ∧
      IrSignalParser.decode_pulses (IrSignalParser.encode_pulses p) = some p := by
  unfold IrSignalParser.parse_and_normalize at h
  split at h
  · cases h
  · split at h
    · cases h
    · cases h
    · rename_i hscrut hnenil heq
      cases h
      obtain ⟨h1, h2, h3, h4⟩ := IrSignalParser.normalize_ok_spec _ _ heq hnenil
      exact ⟨hnenil, h1, h2, h3, h4, IrSignalParser.decode_encode _⟩

/-- C1 witness: the raw capture `"+100 -50 +100"` is accepted with pulse
train `[100, -50, 100]` and no tail gap, and the conclusion holds there. -/
theorem C1_normalization_fixpoint_witness :
    ([100, -50, 100] : List Int) ≠ [] ∧
      (∀ v, ([100, -50, 100] : List Int).head? = some v → 0 < v) ∧
      (∀ v, ([100, -50, 100] : List Int).getLast? = some v → 0 < v) ∧
      (∀ v ∈ ([100, -50, 100] : List Int), v ≠ 0) ∧
      List.Chain' IrSignalParser.OppSign [100, -50, 100] ∧
      IrSignalParser.decode_pulses (IrSignalParser.encode_pulses [100, -50, 100]) =
        some [100, -50, 100] :=
  C1_normalization_fixpoint ("+100 -50 +100".toList) [100, -50, 100] none (by rfl)

/-- C1 counterexample to the claim as stated: the raw capture
`"+100 -50 +100"` parses to `p = [100, -50, 100]` with no tail gap, but
re-parsing `encode_pulses p` (the text `"100 -50 100"`) does not give
`(p, none)`: the unsigned entries are ignored by the token scanner, so the
re-parse fails with the starts-with-a-space error. -/
theorem C1_counterexample :
    IrSignalParser.parse_and_normalize ("+100 -50 +100".toList) =
      Except.ok ([100, -50, 100], none) ∧
    IrSignalParser.parse_and_normalize (IrSignalParser.encode_pulses [100, -50, 100]) =
      Except.error "Signal starts with a space; cannot normalize" ∧
    (Except.error "Signal starts with a space; cannot normalize" :
        Except String (List Int × Option Int)) ≠
      Except.ok ([100, -50, 100], none) :=
  ⟨rfl, rfl, fun hcontra => Except.noConfusion hcontra⟩

/-- C2 (amended): on every successful `aggregate(frames, round_to_us,
min_match_ratio)`, the dominant cluster is the first largest cluster in
first-seen key order, the returned indices are exactly that cluster, and the
aggregated value at every position is the position sign of the dominant
pattern applied to `max 1` of the half-to-even rounding to the nearest
multiple of `round_to_us` of the median of the sorted absolute durations at
that position — where the median of an even count is the truncated average
`(a + b) / 2` of the two middle elements, not the lower-middle element
claimed by the spec. -/
theorem C2_aggregate_median (frames : List (List Int)) (k : Int) (r : ℚ)
    (agg : List Int) (idxs : List Nat) (s : ℚ)
    (h : IrSignalAggregator.aggregate frames k r = Except.ok (agg, idxs, s)) :
    ∃ key, IrSignalAggregator.pickBest (IrSignalAggregator.buildClusters frames) =
        some (key, idxs) ∧
      idxs = IrSignalAggregator.clusterIndices frames key ∧
      agg.length = key.1 ∧
      ∀ i, i < key.1 → agg.getD i 0 =
        (if 0 < key.2.getD i 0 then 1 else (-1 : Int)) *
          ((max 1 (IrSignalAggregator.roundHalfEven
              (IrSignalAggregator.median_int (List.insertionSort (fun a b => a ≤ b)
                (idxs.map (fun idx => ((frames.getD idx []).getD i 0).natAbs))))
            k.toNat * k.toNat) : Nat) : Int) := by
  obtain ⟨key, heq, hreq, hagg⟩ := IrSignalAggregator.aggregate_ok_spec frames k r agg idxs s h
  obtain ⟨hidx, hmax⟩ := IrSignalAggregator.pickBest_buildClusters_eq frames key idxs heq
  refine ⟨key, heq, hidx, by rw [hagg]; simp, ?_⟩
  intro i hi
  rw [hagg, List.getD_eq_getElem?_getD, List.getElem?_map, List.getElem?_range hi]
  rfl

/-- C2 witness: two takes `[900]` and `[902]` with `round_to_us = 10` and
ratio `1` aggregate to `[900]` (median `901`, rounded down to `900`), and the
position-wise characterization holds there. -/
theorem C2_aggregate_median_witness :
    ∃ key, IrSignalAggregator.pickBest (IrSignalAggregator.buildClusters [[900], [902]]) =
        some (key, [0, 1]) ∧
      ([0, 1] : List Nat) = IrSignalAggregator.clusterIndices [[900], [902]] key ∧
      ([900] : List Int).length = key.1 ∧
      ∀ i, i < key.1 → ([900] : List Int).getD i 0 =
        (if 0 < key.2.getD i 0 then 1 else (-1 : Int)) *
          ((max 1 (IrSignalAggregator.roundHalfEven
              (IrSignalAggregator.median_int (List.insertionSort (fun a b => a ≤ b)
                (([0, 1] : List Nat).map
                  (fun idx => ((([[900], [902]] : List (List Int)).getD idx []).getD i 0).natAbs))))
            (10 : Int).toNat * (10 : Int).toNat) : Nat) : Int) := by
  apply C2_aggregate_median [[900], [902]] 10 1 [900] [0, 1]
    (IrSignalAggregator.quality_score [[900], [902]] [0, 1] [900])
  unfold IrSignalAggregator.aggregate
  rw [if_neg (by simp), if_neg (by norm_num), if_neg (by norm_num)]
  rw [show IrSignalAggregator.pickBest (IrSignalAggregator.buildClusters [[900], [902]]) =
    some ((1, [1]), [0, 1]) from rfl]
  show (if (([0, 1] : List Nat).length : Int) < IrSignalAggregator.required 2 1 then _ else _) = _
  rw [if_neg (by unfold IrSignalAggregator.required; norm_num)]
  rfl

/-- C2 counterexample to the claim as stated: takes `[1]` and `[3]` with
`round_to_us = 1` and ratio `1`. The lower-middle median of the absolute
durations `[1, 3]` is `1`, so the claim predicts aggregated value `1`; the
code averages the two middle elements to `2` and returns `[2]`. -/
theorem C2_counterexample :
    IrSignalAggregator.aggregate [[1], [3]] 1 1 =
      Except.ok ([2], [0, 1], IrSignalAggregator.quality_score [[1], [3]] [0, 1] [2]) ∧
    IrSignalAggregator.median_lower [1, 3] = 1 ∧
    IrSignalAggregator.median_int [1, 3] = 2 ∧
    (2 : Int) ≠ (1 : Int) := by
  refine ⟨?_, rfl, rfl, by decide⟩
  unfold IrSignalAggregator.aggregate
  rw [if_neg (by simp), if_neg (by norm_num), if_neg (by norm_num)]
  rw [show IrSignalAggregator.pickBest (IrSignalAggregator.buildClusters [[1], [3]]) =
    some ((1, [1]), [0, 1]) from rfl]
  show (if (([0, 1] : List Nat).length : Int) < IrSignalAggregator.required 2 1 then _ else _) = _
  rw [if_neg (by unfold IrSignalAggregator.required; norm_num)]
  rfl

/-- C3 (amended): every element of a successful aggregation has magnitude
`≥ 1` and its magnitude is a multiple of `round_to_us` or exactly `1` (the
`max(1, ...)` floor applies after rounding, so a duration that rounds to `0`
becomes `1`, which need not be a multiple of `round_to_us`). -/
theorem C3_aggregate_rounding (frames : List (List Int)) (k : Int) (r : ℚ)
    (agg : List Int) (idxs : List Nat) (s : ℚ)
    (h : IrSignalAggregator.aggregate frames k r = Except.ok (agg, idxs, s)) :
    ∀ v ∈ agg, 1 ≤ v.natAbs ∧ (k.toNat ∣ v.natAbs ∨ v.natAbs = 1) := by
  obtain ⟨key, heq, hreq, hagg⟩ := IrSignalAggregator.aggregate_ok_spec frames k r agg idxs s h
  intro v hv
  rw [hagg] at hv
  obtain ⟨i, hi, rfl⟩ := List.mem_map.mp hv
  set X := IrSignalAggregator.roundHalfEven
      (IrSignalAggregator.median_int (List.insertionSort (fun a b => a ≤ b)
        (idxs.map (fun idx => ((frames.getD idx []).getD i 0).natAbs))))
    k.toNat * k.toNat with hX
  have hnat : ((if 0 < key.2.getD i 0 then 1 else (-1 : Int)) *
      ((max 1 X : Nat) : Int)).natAbs = max 1 X := by
    rw [Int.natAbs_mul]
    have h1 : ((max 1 X : Nat) : Int).natAbs = max 1 X := Int.natAbs_ofNat _
    split
    · rw [Int.natAbs_one, one_mul, h1]
    · rw [show ((-1 : Int)).natAbs = 1 from rfl, one_mul, h1]
  rw [hnat]
  refine ⟨le_max_left _ _, ?_⟩
  rcases Nat.eq_zero_or_pos X with h0 | hpos
  · right
    rw [h0]
    rfl
  · left
    rw [max_eq_right hpos, hX]
    exact Dvd.intro_left _ rfl

/-- C3 witness: `aggregate([[900]], 10, 1)` returns `[900]`, whose element
`900` has magnitude `≥ 1` and a multiple of `10`. -/
theorem C3_aggregate_rounding_witness :
    1 ≤ (900 : Int).natAbs ∧
      ((10 : Int).toNat ∣ (900 : Int).natAbs ∨ (900 : Int).natAbs = 1) := by
  have hok : IrSignalAggregator.aggregate [[900]] 10 1 =
      Except.ok ([900], [0], IrSignalAggregator.quality_score [[900]] [0] [900]) := by
    unfold IrSignalAggregator.aggregate
    rw [if_neg (by simp), if_neg (by norm_num), if_neg (by norm_num)]
    rw [show IrSignalAggregator.pickBest (IrSignalAggregator.buildClusters [[900]]) =
      some ((1, [1]), [0]) from rfl]
    show (if (([0] : List Nat).length : Int) < IrSignalAggregator.required 1 1
      then _ else _) = _
    rw [if_neg (by unfold IrSignalAggregator.required; norm_num)]
    rfl
  exact C3_aggregate_rounding [[900]] 10 1 [900] [0]
    (IrSignalAggregator.quality_score [[900]] [0] [900]) hok 900 (by simp)

/-- C4 (amended): with valid parameters, if some cluster (all indices of the
nonempty frames sharing a length and sign pattern) reaches the required
`max(1, ⌈|frames|·min_match_ratio⌉)` size, `aggregate` succeeds; its
`dominant_indices` are exactly the cluster of some key, that cluster is of
maximal size among all clusters (though not necessarily the hypothesised
one), every dominant index carries a frame of length `key.1` and sign
pattern `key.2`, and the aggregated sequence has that shared length. If at
least one frame is nonempty and no cluster reaches the required size,
`aggregate` fails with the insufficient-matches error. -/
theorem C4_aggregate_majority (frames : List (List Int)) (k : Int) (r : ℚ)
    (hk : 0 < k) (hr0 : 0 < r) (hr1 : r ≤ 1) :
    ((∃ key, IrSignalAggregator.required frames.length r ≤
        ((IrSignalAggregator.clusterIndices frames key).length : Int)) →
      ∃ key agg s, IrSignalAggregator.aggregate frames k r =
          Except.ok (agg, IrSignalAggregator.clusterIndices frames key, s) ∧
        IrSignalAggregator.required frames.length r ≤
          ((IrSignalAggregator.clusterIndices frames key).length : Int) ∧
        (∀ key2, ((IrSignalAggregator.clusterIndices frames key2).length : Int) ≤
          ((IrSignalAggregator.clusterIndices frames key).length : Int)) ∧
        agg.length = key.1 ∧
        ∀ i ∈ IrSignalAggregator.clusterIndices frames key,
          i < frames.length ∧ (frames.getD i []).length = key.1 ∧
            IrSignalAggregator.sign_pattern (frames.getD i []) = key.2) ∧
    ((∃ f ∈ frames, f ≠ []) →
      (∀ key, ((IrSignalAggregator.clusterIndices frames key).length : Int) <
        IrSignalAggregator.required frames.length r) →
      IrSignalAggregator.aggregate frames k r =
        Except.error "Not enough matching takes") := by
  have hcond : ¬ (r ≤ 0 ∨ 1 < r) := by
    rw [not_or, not_le, not_lt]
    exact ⟨hr0, hr1⟩
  constructor
  · rintro ⟨key0, hkey0⟩
    have hone : (1 : Int) ≤ IrSignalAggregator.required frames.length r :=
      le_max_left 1 _
    have hciNe : IrSignalAggregator.clusterIndices frames key0 ≠ [] := by
      intro hemp
      rw [hemp] at hkey0
      simp at hkey0
      omega
    have hlk := IrSignalAggregator.lookup_buildClusters frames key0
    rw [if_neg (by simpa [List.isEmpty_iff] using hciNe)] at hlk
    have hmem := IrSignalAggregator.mem_of_lookup _ _ _ hlk
    obtain ⟨best, hbest⟩ : ∃ best,
        IrSignalAggregator.pickBest (IrSignalAggregator.buildClusters frames) = some best := by
      cases hB : IrSignalAggregator.buildClusters frames with
      | nil => rw [hB] at hmem; cases hmem
      | cons a l => exact ⟨_, rfl⟩
    obtain ⟨bk, bi⟩ := best
    obtain ⟨hbi, hmax⟩ := IrSignalAggregator.pickBest_buildClusters_eq frames bk bi hbest
    subst hbi
    have hlen : IrSignalAggregator.required frames.length r ≤
        ((IrSignalAggregator.clusterIndices frames bk).length : Int) := by
      have h2 := hmax key0
      have : ((IrSignalAggregator.clusterIndices frames key0).length : Int) ≤
          ((IrSignalAggregator.clusterIndices frames bk).length : Int) := by
        exact_mod_cast h2
      omega
    have hfne : frames ≠ [] := by
      obtain ⟨i, him⟩ := List.exists_mem_of_ne_nil _ hciNe
      have hlt := (IrSignalAggregator.mem_clusterIndices him).1
      intro hnil
      rw [hnil] at hlt
      simp at hlt
    have hok : IrSignalAggregator.aggregate frames k r =
        Except.ok
          ((List.range bk.1).map (fun i =>
            (if 0 < bk.2.getD i 0 then 1 else (-1 : Int)) *
              ((max 1 (IrSignalAggregator.roundHalfEven
                  (IrSignalAggregator.median_int (List.insertionSort (fun a b => a ≤ b)
                    ((IrSignalAggregator.clusterIndices frames bk).map
                      (fun idx => ((frames.getD idx []).getD i 0).natAbs))))
                k.toNat * k.toNat) : Nat) : Int)),
            IrSignalAggregator.clusterIndices frames bk,
            IrSignalAggregator.quality_score frames
              (IrSignalAggregator.clusterIndices frames bk)
              ((List.range bk.1).map (fun i =>
                (if 0 < bk.2.getD i 0 then 1 else (-1 : Int)) *
                  ((max 1 (IrSignalAggregator.roundHalfEven
                      (IrSignalAggregator.median_int (List.insertionSort (fun a b => a ≤ b)
                        ((IrSignalAggregator.clusterIndices frames bk).map
                          (fun idx => ((frames.getD idx []).getD i 0).natAbs))))
                    k.toNat * k.toNat) : Nat) : Int)))) := by
      unfold IrSignalAggregator.aggregate
      rw [if_neg (by simpa [List.isEmpty_iff] using hfne), if_neg (by omega), if_neg hcond,
        hbest]
      show (if ((IrSignalAggregator.clusterIndices frames bk).length : Int) <
          IrSignalAggregator.required frames.length r then _ else _) = _
      rw [if_neg (by omega)]
    refine ⟨bk, _, _, hok, hlen, fun key2 => by exact_mod_cast hmax key2, by simp, ?_⟩
    intro i him
    obtain ⟨h1, _, h3, h4⟩ := IrSignalAggregator.mem_clusterIndices him
    exact ⟨h1, h3, h4⟩
  · rintro ⟨f, hf, hfne'⟩ hall
    have hciNe := IrSignalAggregator.clusterIndices_of_mem frames f hf hfne'
    have hlk := IrSignalAggregator.lookup_buildClusters frames (f.length,
      IrSignalAggregator.sign_pattern f)
    rw [if_neg (by simpa [List.isEmpty_iff] using hciNe)] at hlk
    have hmem := IrSignalAggregator.mem_of_lookup _ _ _ hlk
    obtain ⟨best, hbest⟩ : ∃ best,
        IrSignalAggregator.pickBest (IrSignalAggregator.buildClusters frames) = some best := by
      cases hB : IrSignalAggregator.buildClusters frames with
      | nil => rw [hB] at hmem; cases hmem
      | cons a l => exact ⟨_, rfl⟩
    obtain ⟨bk, bi⟩ := best
    obtain ⟨hbi, hmax⟩ := IrSignalAggregator.pickBest_buildClusters_eq frames bk bi hbest
    subst hbi
    have hframes : frames ≠ [] := by
      intro hnil
      rw [hnil] at hf
      cases hf
    unfold IrSignalAggregator.aggregate
    rw [if_neg (by simpa [List.isEmpty_iff] using hframes), if_neg (by omega), if_neg hcond,
      hbest]
    show (if ((IrSignalAggregator.clusterIndices frames bk).length : Int) <
        IrSignalAggregator.required frames.length r then _ else _) = _
    rw [if_pos (hall bk)]

/-- C4 witness: on `frames = [[5], [5], [7, -7]]` with `k = 1`, both branches
of the theorem are applied at instances whose antecedents are discharged
concretely. With ratio `1/2` the cluster at key `(1, [1])` has the two
indices `[0, 1]` and meets the required size `2`, so aggregation succeeds on
a cluster of maximal size; with ratio `1` the required size is `3`, every
cluster falls short of it (the only clusters are `[0, 1]` and `[2]`), and
aggregation fails with the insufficient-matches error. -/
theorem C4_aggregate_majority_witness :
    (∃ key agg s, IrSignalAggregator.aggregate [[5], [5], [7, -7]] 1 (1/2 : ℚ) =
        Except.ok (agg, IrSignalAggregator.clusterIndices [[5], [5], [7, -7]] key, s) ∧
      IrSignalAggregator.required 3 (1/2 : ℚ) ≤
        ((IrSignalAggregator.clusterIndices [[5], [5], [7, -7]] key).length : Int) ∧
      (∀ key2, ((IrSignalAggregator.clusterIndices [[5], [5], [7, -7]] key2).length : Int) ≤
        ((IrSignalAggregator.clusterIndices [[5], [5], [7, -7]] key).length : Int)) ∧
      agg.length = key.1 ∧
      ∀ i ∈ IrSignalAggregator.clusterIndices [[5], [5], [7, -7]] key,
        i < ([[5], [5], [7, -7]] : List (List Int)).length ∧
          (([[5], [5], [7, -7]] : List (List Int)).getD i []).length = key.1 ∧
          IrSignalAggregator.sign_pattern
            (([[5], [5], [7, -7]] : List (List Int)).getD i []) = key.2) ∧
    IrSignalAggregator.aggregate [[5], [5], [7, -7]] 1 (1 : ℚ) =
      Except.error "Not enough matching takes" := by
  have hsucc := (C4_aggregate_majority [[5], [5], [7, -7]] 1 (1/2 : ℚ)
    (by norm_num) (by norm_num) (by norm_num)).1
  have hfail := (C4_aggregate_majority [[5], [5], [7, -7]] 1 (1 : ℚ)
    (by norm_num) (by norm_num) (by norm_num)).2
  refine ⟨hsucc ⟨(1, [1]), ?_⟩, hfail ⟨[5], by simp, by simp⟩ ?_⟩
  · rw [show IrSignalAggregator.clusterIndices [[5], [5], [7, -7]] (1, [1]) = [0, 1]
      from rfl]
    unfold IrSignalAggregator.required
    norm_num
    exact Int.ceil_le.mpr (by norm_num)
  · intro key
    have hreq : IrSignalAggregator.required ([[5], [5], [7, -7]] :
        List (List Int)).length (1 : ℚ) = 3 := by
      unfold IrSignalAggregator.required
      norm_num
    rw [hreq]
    by_cases hemp : (IrSignalAggregator.clusterIndices [[5], [5], [7, -7]] key).isEmpty
    · rw [List.isEmpty_iff.mp hemp]
      decide
    · have hlk := IrSignalAggregator.lookup_buildClusters [[5], [5], [7, -7]] key
      rw [if_neg hemp] at hlk
      rw [show IrSignalAggregator.buildClusters [[5], [5], [7, -7]] =
        [((1, [1]), [0, 1]), ((2, [1, -1]), [2])] from rfl] at hlk
      unfold IrSignalAggregator.lookupCluster at hlk
      split at hlk
      · rw [← Option.some_inj.mp hlk]
        decide
      · unfold IrSignalAggregator.lookupCluster at hlk
        split at hlk
        · rw [← Option.some_inj.mp hlk]
          decide
        · cases hlk

/-- C4 counterexample to the claim as stated: in
`frames = [[1], [1], [1, -1], [1, -1], [1, -1]]` with ratio `2/5`, the
cluster `C = [0, 1]` at key `(1, [1])` has size `2 ≥ ⌈5 · 2/5⌉ = 2`, yet
`aggregate` picks the bigger cluster: its dominant indices `[2, 3, 4]` are
not a subset of `C`, and the aggregated length is `2`, not `|C[0]| = 1`. -/
theorem C4_counterexample :
    IrSignalAggregator.clusterIndices [[1], [1], [1, -1], [1, -1], [1, -1]] (1, [1]) =
      [0, 1] ∧
    IrSignalAggregator.required 5 (2/5 : ℚ) ≤ 2 ∧
    IrSignalAggregator.aggregate [[1], [1], [1, -1], [1, -1], [1, -1]] 1 (2/5 : ℚ) =
      Except.ok ([1, -1], [2, 3, 4],
        IrSignalAggregator.quality_score [[1], [1], [1, -1], [1, -1], [1, -1]]
          [2, 3, 4] [1, -1]) ∧
    ¬ (∀ i ∈ ([2, 3, 4] : List Nat), i ∈ ([0, 1] : List Nat)) ∧
    ([1, -1] : List Int).length ≠ ([1] : List Int).length := by
  refine ⟨rfl, by unfold IrSignalAggregator.required; norm_num, ?_, by decide, by decide⟩
  unfold IrSignalAggregator.aggregate
  rw [if_neg (by simp), if_neg (by norm_num), if_neg (by norm_num)]
  rw [show IrSignalAggregator.pickBest
      (IrSignalAggregator.buildClusters [[1], [1], [1, -1], [1, -1], [1, -1]]) =
    some ((2, [1, -1]), [2, 3, 4]) from rfl]
  show (if (([2, 3, 4] : List Nat).length : Int) <
      IrSignalAggregator.required 5 (2/5 : ℚ) then _ else _) = _
  rw [if_neg (by unfold IrSignalAggregator.required; norm_num)]
  rfl

/-- C5: `update_hold` succeeds only when a `button_signals` row for the
button already exists, and rows come into existence only through a prior
successful `upsert_press` on the same button; when no row exists,
`update_hold` raises and writes nothing. Stated over every sequence of
`upsert_press`/`update_hold` operations run against the initially empty
table. -/
theorem C5_press_precedes_hold (ops : List Signals.SigOp) (a : Signals.HoldArgs)
    (db : List (Int × Signals.SignalRow)) :
    ((Signals.applyOp (Signals.runOps ops) (Signals.SigOp.hold a)).2.isOk = true →
      ∃ i pa, ops.get? i = some (Signals.SigOp.press pa) ∧ pa.button_id = a.button_id ∧
        (Signals.applyOp (Signals.runOps (ops.take i)) (Signals.SigOp.press pa)).2.isOk =
          true) ∧
    (Signals.rowExists db a.button_id = false →
      (Signals.applyOp db (Signals.SigOp.hold a)).1 = db ∧
        (Signals.applyOp db (Signals.SigOp.hold a)).2.isOk = false) := by
  constructor
  · intro hok
    have hex : Signals.rowExists (Signals.runOps ops) a.button_id = true :=
      Signals.update_hold_ok_exists _ _ _ _ _ _ _ _ hok
    exact Signals.rowExists_runOps ops a.button_id hex
  · intro hno
    have hnone : Signals.lookupRow db a.button_id = none := by
      unfold Signals.rowExists at hno
      cases hlk : Signals.lookupRow db a.button_id with
      | none => rfl
      | some row => rw [hlk] at hno; cases hno
    constructor
    · show (Signals.update_hold db a.button_id a.hold_initial a.hold_repeat a.hold_gap_us
        a.sample_count_hold a.quality_score_hold a.now).1 = db
      unfold Signals.update_hold
      split
      · rfl
      · split
        · rfl
        · split
          · rfl
          · rename_i existing hlk
            rw [hnone] at hlk
            cases hlk
    · show (Signals.update_hold db a.button_id a.hold_initial a.hold_repeat a.hold_gap_us
        a.sample_count_hold a.quality_score_hold a.now).2.isOk = false
      unfold Signals.update_hold
      split
      · rfl
      · split
        · rfl
        · split
          · rfl
          · rename_i existing hlk
            rw [hnone] at hlk
            cases hlk

/-- C5 witness: after the single successful `upsert_press` on button `1`,
`update_hold` on button `1` succeeds and the prior press is found at index
`0`; and against the empty table, `update_hold` fails and writes nothing. -/
theorem C5_press_precedes_hold_witness :
    (∃ i pa,
      ([Signals.SigOp.press ⟨1, "900 -450".toList, none, 3, none,
          "signed_us_v1".toList, 0⟩] : List Signals.SigOp).get? i =
          some (Signals.SigOp.press pa) ∧
        pa.button_id =
          (⟨1, "800 -400".toList, none, some 40000, 5, none, 1⟩ :
            Signals.HoldArgs).button_id ∧
        (Signals.applyOp
          (Signals.runOps (([Signals.SigOp.press ⟨1, "900 -450".toList, none, 3, none,
            "signed_us_v1".toList, 0⟩] : List Signals.SigOp).take i))
          (Signals.SigOp.press pa)).2.isOk = true) ∧
    ((Signals.applyOp []
        (Signals.SigOp.hold ⟨1, "800 -400".toList, none, some 40000, 5, none, 1⟩)).1 =
        [] ∧
      (Signals.applyOp []
        (Signals.SigOp.hold ⟨1, "800 -400".toList, none, some 40000, 5, none, 1⟩)).2.isOk =
        false) :=
  ⟨(C5_press_precedes_hold
      [Signals.SigOp.press ⟨1, "900 -450".toList, none, 3, none, "signed_us_v1".toList, 0⟩]
      ⟨1, "800 -400".toList, none, some 40000, 5, none, 1⟩ []).1 (by rfl),
    (C5_press_precedes_hold
      [Signals.SigOp.press ⟨1, "900 -450".toList, none, 3, none, "signed_us_v1".toList, 0⟩]
      ⟨1, "800 -400".toList, none, some 40000, 5, none, 1⟩ []).2 (by rfl)⟩

/-- C6: for every hold send with `hold_ms > 0`, nonempty `hold_initial` and
`hold_repeat`, and `hold_gap_us > 0`, the estimated repeat count equals
`max(1, ⌈(hold_ms·1000 − Σ|hold_initial|) / (Σ|hold_repeat| + hold_gap_us)⌉)`;
in particular it is `≥ 1` and non-decreasing in `hold_ms` for the other
arguments fixed. -/
theorem C6_repeat_estimate (hold_ms : Int) (initial_pulses repeat_pulses : List Int)
    (g : Int) (hms : 0 < hold_ms) (hi : initial_pulses ≠ []) (hr : repeat_pulses ≠ [])
    (hg : 0 < g) :
    IrSenderService.estimate_repeat_count hold_ms initial_pulses repeat_pulses (some g) =
      max 1 (Int.ceil
        (((hold_ms * 1000 - (initial_pulses.map (fun v => |v|)).sum : Int) : ℚ) /
          (((repeat_pulses.map (fun v => |v|)).sum + g : Int) : ℚ))) ∧
    1 ≤ IrSenderService.estimate_repeat_count hold_ms initial_pulses repeat_pulses (some g) ∧
    ∀ ms2, hold_ms ≤ ms2 →
      IrSenderService.estimate_repeat_count hold_ms initial_pulses repeat_pulses (some g) ≤
        IrSenderService.estimate_repeat_count ms2 initial_pulses repeat_pulses (some g) := by
  have hP : 0 < (repeat_pulses.map (fun v => |v|)).sum + g := by
    have := IrSenderService.sum_abs_nonneg repeat_pulses
    omega
  have hgc : IrSenderService.gap_contrib (some g) = g := by
    show (if 0 < g then g else 0) = g
    rw [if_pos hg]
  have hform : ∀ ms : Int,
      IrSenderService.estimate_repeat_count ms initial_pulses repeat_pulses (some g) =
        max 1 (Int.ceil
          (((ms * 1000 - (initial_pulses.map (fun v => |v|)).sum : Int) : ℚ) /
            (((repeat_pulses.map (fun v => |v|)).sum + g : Int) : ℚ))) := by
    intro ms
    unfold IrSenderService.estimate_repeat_count
    rw [hgc, if_neg (by omega)]
    exact IrSenderService.ceil_div_nonneg_spec _ _ hP
  refine ⟨hform hold_ms, ?_, ?_⟩
  · rw [hform hold_ms]
    exact le_max_left _ _
  · intro ms2 hle
    rw [hform hold_ms, hform ms2]
    apply max_le_max (le_refl 1)
    apply Int.ceil_le_ceil
    have hq : (0 : ℚ) < (((repeat_pulses.map (fun v => |v|)).sum + g : Int) : ℚ) := by
      exact_mod_cast hP
    rw [div_le_div_right hq]
    have : hold_ms * 1000 - (initial_pulses.map (fun v => |v|)).sum ≤
        ms2 * 1000 - (initial_pulses.map (fun v => |v|)).sum := by omega
    exact_mod_cast this

/-- C6 witness: `hold_ms = 100`, `hold_initial = [9000, -4500]`,
`hold_repeat = [560, -560]`, `hold_gap_us = 40000`: the estimate obeys the
closed formula, is `≥ 1`, and is monotone in `hold_ms`. -/
theorem C6_repeat_estimate_witness :
    IrSenderService.estimate_repeat_count 100 [9000, -4500] [560, -560] (some 40000) =
      max 1 (Int.ceil
        (((100 * 1000 - (([9000, -4500] : List Int).map (fun v => |v|)).sum : Int) : ℚ) /
          (((([560, -560] : List Int).map (fun v => |v|)).sum + 40000 : Int) : ℚ))) ∧
    1 ≤ IrSenderService.estimate_repeat_count 100 [9000, -4500] [560, -560] (some 40000) ∧
    ∀ ms2, (100 : Int) ≤ ms2 →
      IrSenderService.estimate_repeat_count 100 [9000, -4500] [560, -560] (some 40000) ≤
        IrSenderService.estimate_repeat_count ms2 [9000, -4500] [560, -560] (some 40000) :=
  C6_repeat_estimate 100 [9000, -4500] [560, -560] 40000 (by norm_num)
    (by simp) (by simp) (by norm_num)

/-- C3 counterexample to the claim as stated: `aggregate([[2]], 10, 1)`
succeeds with aggregated `[1]` (the median `2` rounds to `0`, lifted to the
`max(1, ...)` floor), and `1` is not a multiple of `round_to_us = 10`. -/
theorem C3_counterexample :
    IrSignalAggregator.aggregate [[2]] 10 1 =
      Except.ok ([1], [0], IrSignalAggregator.quality_score [[2]] [0] [1]) ∧
    ¬ ((10 : Int).toNat ∣ (1 : Int).natAbs) := by
  refine ⟨?_, by decide⟩
  unfold IrSignalAggregator.aggregate
  rw [if_neg (by simp), if_neg (by norm_num), if_neg (by norm_num)]
  rw [show IrSignalAggregator.pickBest (IrSignalAggregator.buildClusters [[2]]) =
    some ((1, [1]), [0]) from rfl]
  show (if (([0] : List Nat).length : Int) < IrSignalAggregator.required 1 1 then _ else _) = _
  rw [if_neg (by unfold IrSignalAggregator.required; norm_num)]
  rfl

/-- C7: a command request waits on its completion event for
`max(0.5, timeout_seconds)` seconds at most; when no response has completed
the waiter by wake-up time, the waiter is removed from the pending map and
the call fails with code `agent_timeout` and status 504; and a response
arriving for a request id that is no longer pending leaves the map unchanged
and signals no event (it is silently dropped). -/
theorem C7_rpc_timeout {α : Type} (t : ℚ)
    (pending : List (List Char × AgentCommandClientHub.PendingEntry α))
    (request_id agent_id : List Char)
    (payload : AgentCommandClientHub.ResponsePayload α) :
    AgentCommandClientHub.request_wait_seconds t = max (1/2) t ∧
    ((∀ st, AgentCommandClientHub.lookupPending pending request_id = some st →
        st.completed = false) →
      AgentCommandClientHub.finish_request pending request_id =
        (AgentCommandClientHub.removePending pending request_id,
          Except.error ⟨"agent_timeout", 504⟩) ∧
      AgentCommandClientHub.lookupPending
        (AgentCommandClientHub.removePending pending request_id) request_id = none) ∧
    (AgentCommandClientHub.lookupPending pending request_id = none →
      AgentCommandClientHub.on_response pending agent_id request_id payload =
        (pending, none)) := by
  refine ⟨rfl, ?_, ?_⟩
  · intro hall
    refine ⟨?_, AgentCommandClientHub.lookupPending_removePending pending request_id⟩
    unfold AgentCommandClientHub.finish_request
    cases hlk : AgentCommandClientHub.lookupPending pending request_id with
    | none => rfl
    | some st =>
      have hc := hall st hlk
      show (if st.completed = false then _ else _) = _
      rw [hc, if_pos rfl]
  · intro hnone
    unfold AgentCommandClientHub.on_response
    by_cases hempty : agent_id = [] ∨ request_id = []
    · rw [if_pos hempty]
    · rw [if_neg hempty, hnone]

/-- C7 witness: with a pending waiter for `"r1"` that is not completed, the
post-wait path removes it and fails `agent_timeout`/504; and a response for
the unknown request id `"r2"` is dropped without touching the map. -/
theorem C7_rpc_timeout_witness :
    AgentCommandClientHub.request_wait_seconds 12 = max (1/2) 12 ∧
    (AgentCommandClientHub.finish_request
        [("r1".toList, ⟨"a1".toList, false, false, (none : Option Unit), none⟩)]
        "r1".toList =
      (AgentCommandClientHub.removePending
          [("r1".toList, ⟨"a1".toList, false, false, (none : Option Unit), none⟩)]
          "r1".toList,
        Except.error ⟨"agent_timeout", 504⟩) ∧
      AgentCommandClientHub.lookupPending
        (AgentCommandClientHub.removePending
          [("r1".toList, ⟨"a1".toList, false, false, (none : Option Unit), none⟩)]
          "r1".toList) "r1".toList = none) ∧
    AgentCommandClientHub.on_response
        [("r1".toList, ⟨"a1".toList, false, false, (none : Option Unit), none⟩)]
        "a1".toList "r2".toList ⟨none, true, none, none⟩ =
      ([("r1".toList, ⟨"a1".toList, false, false, (none : Option Unit), none⟩)], none) :=
  ⟨(C7_rpc_timeout 12
      [("r1".toList, ⟨"a1".toList, false, false, (none : Option Unit), none⟩)]
      "r1".toList "a1".toList ⟨none, true, none, none⟩).1,
    (C7_rpc_timeout 12
      [("r1".toList, ⟨"a1".toList, false, false, (none : Option Unit), none⟩)]
      "r1".toList "a1".toList ⟨none, true, none, none⟩).2.1
      (fun st h => by cases h; rfl),
    (C7_rpc_timeout 12
      [("r1".toList, ⟨"a1".toList, false, false, (none : Option Unit), none⟩)]
      "r2".toList "a1".toList ⟨none, true, none, none⟩).2.2 (by rfl)⟩

/-- C8: with the live agents given by the in-memory registry,
`resolve_agent_for_remote` returns the live agent named by the remote's
normalized `assigned_agent_id` when it is set, failing `agent_offline`/503
when no live agent has that id; when unset it fails `no_agents`/503 with
zero live agents, persists and returns the single live agent when exactly
one is live (live agent ids are nonempty by construction at every
registration site), and fails `agent_required`/400 when more than one is
live. -/
theorem C8_agent_routing (live : List (List Char)) (raw : Option (List Char)) :
    (∀ aid, AgentRegistry.normalized_assigned raw = some aid →
      (live.contains aid = true →
        AgentRegistry.resolve_agent_for_remote live raw = Except.ok (aid, none)) ∧
      (live.contains aid = false →
        AgentRegistry.resolve_agent_for_remote live raw =
          Except.error ⟨"agent_offline", 503⟩)) ∧
    (AgentRegistry.normalized_assigned raw = none →
      (live = [] →
        AgentRegistry.resolve_agent_for_remote live raw =
          Except.error ⟨"no_agents", 503⟩) ∧
      (∀ a, a ≠ [] → live.dedup = [a] →
        AgentRegistry.resolve_agent_for_remote live raw = Except.ok (a, some a)) ∧
      (2 ≤ live.dedup.length →
        AgentRegistry.resolve_agent_for_remote live raw =
          Except.error ⟨"agent_required", 400⟩)) := by
  constructor
  · intro aid h
    have haid : aid ≠ [] := by
      cases raw with
      | none => cases h
      | some r =>
        by_cases hs : pyStrip r = []
        · have hnorm : AgentRegistry.normalized_assigned (some r) = none := by
            show (if pyStrip r = [] then none else some (pyStrip r)) = none
            rw [if_pos hs]
          rw [hnorm] at h
          cases h
        · have hnorm : AgentRegistry.normalized_assigned (some r) = some (pyStrip r) := by
            show (if pyStrip r = [] then none else some (pyStrip r)) = some (pyStrip r)
            rw [if_neg hs]
          rw [hnorm] at h
          cases h
          exact hs
    constructor
    · intro hc
      unfold AgentRegistry.resolve_agent_for_remote
      rw [h]
      show (AgentRegistry.get_agent_by_id live aid).map (fun a => (a, none)) =
        Except.ok (aid, none)
      unfold AgentRegistry.get_agent_by_id
      rw [if_neg haid, if_pos hc]
      rfl
    · intro hc
      unfold AgentRegistry.resolve_agent_for_remote
      rw [h]
      show (AgentRegistry.get_agent_by_id live aid).map (fun a => (a, none)) =
        Except.error ⟨"agent_offline", 503⟩
      unfold AgentRegistry.get_agent_by_id
      rw [if_neg haid, if_neg (by rw [hc]; simp)]
      rfl
  · intro h
    refine ⟨?_, ?_, ?_⟩
    · intro hnil
      subst hnil
      unfold AgentRegistry.resolve_agent_for_remote
      rw [h]
      rfl
    · intro a ha hdedup
      have hmem : a ∈ live := List.mem_dedup.mp (by rw [hdedup]; simp)
      have hcont : live.contains a = true := List.elem_eq_true_of_mem hmem
      unfold AgentRegistry.resolve_agent_for_remote
      rw [h, hdedup]
      show (AgentRegistry.get_agent_by_id live a).map (fun x => (x, some a)) =
        Except.ok (a, some a)
      unfold AgentRegistry.get_agent_by_id
      rw [if_neg ha, if_pos hcont]
      rfl
    · intro hlen
      obtain ⟨x, y, rest2, hd⟩ : ∃ x y rest2, live.dedup = x :: y :: rest2 := by
        cases hdl : live.dedup with
        | nil => rw [hdl] at hlen; simp at hlen
        | cons x rest =>
          cases rest with
          | nil => rw [hdl] at hlen; simp at hlen
          | cons y rest2 => exact ⟨x, y, rest2, rfl⟩
      unfold AgentRegistry.resolve_agent_for_remote
      rw [h, hd]

/-- C8 witness: with live agents `["a1"]` and no assignment the single
agent is auto-bound and returned; with live agents `["a1", "a2"]` and
assignment `"a2"` that agent is returned; with assignment `"a3"` not live it
fails `agent_offline`/503; with no live agents it fails `no_agents`/503; and
with two live agents and no assignment it fails `agent_required`/400. -/
theorem C8_agent_routing_witness :
    AgentRegistry.resolve_agent_for_remote ["a1".toList] none =
      Except.ok ("a1".toList, some ("a1".toList)) ∧
    AgentRegistry.resolve_agent_for_remote ["a1".toList, "a2".toList]
      (some ("a2".toList)) = Except.ok ("a2".toList, none) ∧
    AgentRegistry.resolve_agent_for_remote ["a1".toList, "a2".toList]
      (some ("a3".toList)) = Except.error ⟨"agent_offline", 503⟩ ∧
    AgentRegistry.resolve_agent_for_remote [] none = Except.error ⟨"no_agents", 503⟩ ∧
    AgentRegistry.resolve_agent_for_remote ["a1".toList, "a2".toList] none =
      Except.error ⟨"agent_required", 400⟩ :=
  ⟨(C8_agent_routing ["a1".toList] none).2 (by rfl)
      |>.2.1 ("a1".toList) (by decide) (by rfl),
    ((C8_agent_routing ["a1".toList, "a2".toList] (some ("a2".toList))).1
      ("a2".toList) (by rfl)).1 (by rfl),
    ((C8_agent_routing ["a1".toList, "a2".toList] (some ("a3".toList))).1
      ("a3".toList) (by rfl)).2 (by rfl),
    ((C8_agent_routing [] none).2 (by rfl)).1 rfl,
    ((C8_agent_routing ["a1".toList, "a2".toList] none).2 (by rfl)).2.2 (by decide)⟩

/-- C9: the claimed session exclusivity fails on the code. `start()` checks
`self._session is not None` in one locked block, releases the lock for the
database work, and assigns the session in a second locked block, so two
concurrent `start()` calls can both pass the check while no session is
active and both return success, with no `stop()` in between. The exhibited
trace is: thread 1 passes the check, thread 2 passes the check, thread 1
assigns and returns, thread 2 assigns (silently replacing the first
session) and returns. -/
theorem C9_start_race :
    ∃ s : IrLearningService.RaceState,
      Relation.ReflTransGen IrLearningService.StartStep
        ⟨false, IrLearningService.ThreadPC.idle, IrLearningService.ThreadPC.idle⟩ s ∧
      s.t1 = IrLearningService.ThreadPC.done_ok ∧
      s.t2 = IrLearningService.ThreadPC.done_ok := by
  refine ⟨⟨true, IrLearningService.ThreadPC.done_ok, IrLearningService.ThreadPC.done_ok⟩,
    ?_, rfl, rfl⟩
  have h1 : IrLearningService.StartStep
      ⟨false, IrLearningService.ThreadPC.idle, IrLearningService.ThreadPC.idle⟩
      ⟨false, IrLearningService.ThreadPC.checked, IrLearningService.ThreadPC.idle⟩ :=
    IrLearningService.StartStep.check1_pass _ rfl rfl
  have h2 : IrLearningService.StartStep
      ⟨false, IrLearningService.ThreadPC.checked, IrLearningService.ThreadPC.idle⟩
      ⟨false, IrLearningService.ThreadPC.checked, IrLearningService.ThreadPC.checked⟩ :=
    IrLearningService.StartStep.check2_pass _ rfl rfl
  have h3 : IrLearningService.StartStep
      ⟨false, IrLearningService.ThreadPC.checked, IrLearningService.ThreadPC.checked⟩
      ⟨true, IrLearningService.ThreadPC.done_ok, IrLearningService.ThreadPC.checked⟩ :=
    IrLearningService.StartStep.set1 _ rfl
  have h4 : IrLearningService.StartStep
      ⟨true, IrLearningService.ThreadPC.done_ok, IrLearningService.ThreadPC.checked⟩
      ⟨true, IrLearningService.ThreadPC.done_ok, IrLearningService.ThreadPC.done_ok⟩ :=
    IrLearningService.StartStep.set2 _ rfl
  exact Relation.ReflTransGen.head h1 (Relation.ReflTransGen.head h2
    (Relation.ReflTransGen.head h3 (Relation.ReflTransGen.single h4)))

/-- C10: `open_pairing` never rejects an out-of-range duration: with MQTT
connected it succeeds for every duration, clamping values below 10 (zero and
negatives included) to 10 and values above 3600 to 3600, and both the
published `expires_at` and the auto-close timer delay use the clamped
duration. -/
theorem C10_open_pairing_clamp (now : ℚ) (d : Int) :
    (∃ res, PairingManagerHub.open_pairing true now (some d) = Except.ok res ∧
      res.expires_at = now + (PairingManagerHub.open_pairing_duration (some d) : ℚ) ∧
      res.timer_seconds = PairingManagerHub.open_pairing_duration (some d)) ∧
    10 ≤ PairingManagerHub.open_pairing_duration (some d) ∧
    PairingManagerHub.open_pairing_duration (some d) ≤ 3600 ∧
    (d < 10 → PairingManagerHub.open_pairing_duration (some d) = 10) ∧
    (3600 < d → PairingManagerHub.open_pairing_duration (some d) = 3600) ∧
    (10 ≤ d → d ≤ 3600 → PairingManagerHub.open_pairing_duration (some d) = d) := by
  have hd : PairingManagerHub.duration_or_zero (some d) = d := rfl
  refine ⟨⟨_, rfl, rfl, rfl⟩, ?_, ?_, fun h => ?_, fun h => ?_, fun h1 h2 => ?_⟩ <;>
    (unfold PairingManagerHub.open_pairing_duration; rw [hd]; split_ifs <;> omega)

/-- C10 witness: duration `-5` clamps to 10, `5000` clamps to 3600, `300`
passes through, and `open_pairing` succeeds with `expires_at` and timer
delay derived from the clamped duration. -/
theorem C10_open_pairing_clamp_witness :
    PairingManagerHub.open_pairing_duration (some (-5)) = 10 ∧
    PairingManagerHub.open_pairing_duration (some 5000) = 3600 ∧
    PairingManagerHub.open_pairing_duration (some 300) = 300 ∧
    (∃ res, PairingManagerHub.open_pairing true 1000 (some (-5)) = Except.ok res ∧
      res.expires_at = 1000 + (PairingManagerHub.open_pairing_duration (some (-5)) : ℚ) ∧
      res.timer_seconds = PairingManagerHub.open_pairing_duration (some (-5))) :=
  ⟨(C10_open_pairing_clamp 1000 (-5)).2.2.2.1 (by norm_num),
    (C10_open_pairing_clamp 1000 5000).2.2.2.2.1 (by norm_num),
    (C10_open_pairing_clamp 1000 300).2.2.2.2.2 (by norm_num) (by norm_num),
    (C10_open_pairing_clamp 1000 (-5)).1⟩

end MqttIr
